import Mathlib

/-!
Shallow embedding of the langgraph-agent-management execution engine and
agent registry (src/app/services/task_service.py, src/app/services/agent_service.py,
src/app/services/legacy/agent_service.py, src/app/utils/config.py).

Python dicts are modelled as insertion-ordered association lists over `String`
keys; Python `list.remove` is `List.erase` (first occurrence); exceptions are
`Except` values; the external executor collaborator (actual agent task
execution) is abstracted as an oracle `String → Bool` giving each step's
success or failure, as it is an external collaborator of the engine.
-/

set_option maxHeartbeats 1000000

namespace LangGraph

/-- Python `dict.get`: first binding of the key in an insertion-ordered
association list. -/
def dget {α : Type} : List (String × α) → String → Option α
  | [], _ => none
  | (k, v) :: rest, key => if k = key then some v else dget rest key

/-- Python `d[key] = value`: replace the binding in place, or append a new
binding at the end (insertion order). -/
def dset {α : Type} : List (String × α) → String → α → List (String × α)
  | [], key, v => [(key, v)]
  | (k, w) :: rest, key, v =>
    if k = key then (key, v) :: rest else (k, w) :: dset rest key v

/-- Python `del d[key]`: remove the (first) binding of the key. -/
def ddel {α : Type} : List (String × α) → String → List (String × α)
  | [], _ => []
  | (k, w) :: rest, key => if k = key then rest else (k, w) :: ddel rest key

/-! ## Agent registry (src/app/services/agent_service.py) -/

/-- The fields of `AgentResponse` that the registry operations read or write
(id, workflow, parent/child hierarchy, child cap). -/
structure Agent where
  id : String
  workflow_id : String
  parent_agent_id : Option String
  max_child_agents : Nat
  child_agents : List String
deriving Repr, DecidableEq

/-- In-memory state of `AgentService`: `_agents`, `_agent_connections`,
`_workflow_agents`, and the `max_agents_per_workflow` setting. -/
structure AgentService where
  agents : List (String × Agent)
  agentConnections : List (String × List String)
  workflowAgents : List (String × List String)
  maxAgentsPerWorkflow : Nat
deriving Repr, DecidableEq

/-- Default of `Settings.max_agents_per_workflow` (src/app/utils/config.py line 36). -/
def defaultMaxAgentsPerWorkflow : Nat := 100

/-- Errors raised by the agent service (src/app/utils/errors.py). -/
inductive AgentErr where
  | notFound (agentId : String)
  | limitExceeded (limitType : String) (current maximum : Nat)
  | connectionError (agentId targetId reason : String)
deriving Repr, DecidableEq

/-- Connection list of an agent: `self._agent_connections.get(agent_id, [])`. -/
def getConns (s : AgentService) (agentId : String) : List String :=
  (dget s.agentConnections agentId).getD []

/-- AgentService.create_agent (lines 33-87): reject when the workflow already
holds `max_agents_per_workflow` agents, otherwise store the new agent, append
it to the workflow index and initialise its connection list.  The fresh
`uuid4` id is passed explicitly. -/
def createAgent (s : AgentService) (workflowId agentId : String)
    (maxChild : Nat) : Except AgentErr AgentService :=
  let currentAgents := ((dget s.workflowAgents workflowId).getD []).length
  if currentAgents ≥ s.maxAgentsPerWorkflow then
    .error (.limitExceeded "Workflow agents" currentAgents s.maxAgentsPerWorkflow)
  else
    let agent : Agent :=
      { id := agentId, workflow_id := workflowId, parent_agent_id := none,
        max_child_agents := maxChild, child_agents := [] }
    let s1 := { s with agents := dset s.agents agentId agent }
    let wa := dset s1.workflowAgents workflowId
      (((dget s1.workflowAgents workflowId).getD []) ++ [agentId])
    let s2 := { s1 with workflowAgents := wa }
    .ok { s2 with agentConnections := dset s2.agentConnections agentId [] }

/-- AgentService.spawn_child_agent (lines 318-351): `AgentNotFoundError` for an
unknown parent, `AgentLimitExceededError` once the parent has
`max_child_agents` children, otherwise create the child (which may itself hit
the workflow cap), set its parent back-reference and append it to the parent's
child list. -/
def spawnChildAgent (s : AgentService) (parentId childId : String)
    (maxChild : Nat) : Except AgentErr AgentService :=
  match dget s.agents parentId with
  | none => .error (.notFound parentId)
  | some parent =>
    if parent.child_agents.length ≥ parent.max_child_agents then
      .error (.limitExceeded "Child agents" parent.child_agents.length
        parent.max_child_agents)
    else
      match createAgent s parent.workflow_id childId maxChild with
      | .error e => .error e
      | .ok s1 =>
        let s2 :=
          match dget s1.agents childId with
          | some child =>
            let child1 := { child with parent_agent_id := some parentId }
            { s1 with agents := dset s1.agents childId child1 }
          | none => s1
        match dget s2.agents parentId with
        | some p =>
          let p1 := { p with child_agents := p.child_agents ++ [childId] }
          .ok { s2 with agents := dset s2.agents parentId p1 }
        | none => .ok s2

/-- The two statements `if agent_id not in self._agent_connections:
self._agent_connections[agent_id] = []` in connect_agents. -/
def ensureEntry (c : List (String × List String)) (k : String) :
    List (String × List String) :=
  match dget c k with
  | some _ => c
  | none => dset c k []

/-- One direction of the bidirectional append in connect_agents:
`if y not in conns[x]: conns[x].append(y)`. -/
def addEdgeOneWay (c : List (String × List String)) (x y : String) :
    List (String × List String) :=
  let l := (dget c x).getD []
  if y ∈ l then c else dset c x (l ++ [y])

/-- One direction of the removal in disconnect_agents:
`if x in conns: if y in conns[x]: conns[x].remove(y)`. -/
def removeEdgeOneWay (c : List (String × List String)) (x y : String) :
    List (String × List String) :=
  match dget c x with
  | some l => if y ∈ l then dset c x (l.erase y) else c
  | none => c

/-- AgentService.connect_agents (lines 186-235): returns `False` when either
agent is unknown; raises `AgentConnectionError` when the agents are in
different workflows or when an agent is connected to itself; otherwise adds
the edge in both directions (skipping directions already present) and returns
`True`. -/
def connectAgents (s : AgentService) (agentId targetAgentId : String) :
    Except AgentErr (AgentService × Bool) :=
  match dget s.agents agentId, dget s.agents targetAgentId with
  | some agent, some target =>
    if agent.workflow_id ≠ target.workflow_id then
      .error (.connectionError agentId targetAgentId
        "Agents must be in the same workflow")
    else if agentId = targetAgentId then
      .error (.connectionError agentId targetAgentId
        "Agent cannot connect to itself")
    else
      let c1 := ensureEntry s.agentConnections agentId
      let c2 := ensureEntry c1 targetAgentId
      let c3 := addEdgeOneWay c2 agentId targetAgentId
      let c4 := addEdgeOneWay c3 targetAgentId agentId
      .ok ({ s with agentConnections := c4 }, true)
  | _, _ => .ok (s, false)

/-- AgentService.disconnect_agents (lines 237-267): returns `False` when either
agent is unknown; otherwise removes the edge in both directions (with no
same-workflow or self check) and returns `True`. -/
def disconnectAgents (s : AgentService) (agentId targetAgentId : String) :
    Except AgentErr (AgentService × Bool) :=
  match dget s.agents agentId, dget s.agents targetAgentId with
  | some _, some _ =>
    let c1 := removeEdgeOneWay s.agentConnections agentId targetAgentId
    let c2 := removeEdgeOneWay c1 targetAgentId agentId
    .ok ({ s with agentConnections := c2 }, true)
  | _, _ => .ok (s, false)

/-- Legacy AgentService.disconnect_agents
(src/app/services/legacy/agent_service.py lines 604-642): same as the current
one except that it first returns `False` when the agents are not connected in
either direction. -/
def disconnectAgentsLegacy (s : AgentService) (agentId targetAgentId : String) :
    Except AgentErr (AgentService × Bool) :=
  match dget s.agents agentId, dget s.agents targetAgentId with
  | some _, some _ =>
    let agentConnections := (dget s.agentConnections agentId).getD []
    let targetConnections := (dget s.agentConnections targetAgentId).getD []
    if targetAgentId ∉ agentConnections ∧ agentId ∉ targetConnections then
      .ok (s, false)
    else
      let c1 := removeEdgeOneWay s.agentConnections agentId targetAgentId
      let c2 := removeEdgeOneWay c1 targetAgentId agentId
      .ok ({ s with agentConnections := c2 }, true)
  | _, _ => .ok (s, false)

/-- The connection-stripping statements of delete_agent (lines 157-165):
remove this agent from every other agent's connection list (one `remove` per
list, guarded by membership), then delete this agent's own entry. -/
def stripConns (c : List (String × List String)) (agentId : String) :
    List (String × List String) :=
  ddel (c.map (fun p => (p.1, if agentId ∈ p.2 then p.2.erase agentId else p.2)))
    agentId

/-- AgentService.delete_agent (lines 143-184): remove the agent from its
workflow index, strip it from every connection list and drop its own entry,
recursively delete its children, then remove it from storage.  `fuel` bounds
the recursion depth (the Python recursion terminates because spawn builds an
acyclic parent/child forest; any fuel at least the number of agents is
enough). -/
def deleteAgent : Nat → AgentService → String → AgentService × Bool
  | 0, s, _ => (s, false)
  | fuel + 1, s, agentId =>
    match dget s.agents agentId with
    | none => (s, false)
    | some agent =>
      let wa :=
        match dget s.workflowAgents agent.workflow_id with
        | some l =>
          if agentId ∈ l then
            dset s.workflowAgents agent.workflow_id (l.erase agentId)
          else s.workflowAgents
        | none => s.workflowAgents
      let s1 := { s with workflowAgents := wa }
      let s2 :=
        match dget s1.agentConnections agentId with
        | some _ =>
          { s1 with agentConnections := stripConns s1.agentConnections agentId }
        | none => s1
      let s3 := agent.child_agents.foldl
        (fun acc childId => (deleteAgent fuel acc childId).1) s2
      ({ s3 with agents := ddel s3.agents agentId }, true)

/-! ## Task service (src/app/services/task_service.py) -/

/-- The fields of a workflow step dict that scheduling reads: `step_id` and
`dependencies`. -/
structure PStep where
  step_id : String
  dependencies : List String
deriving Repr, DecidableEq

/-- Result recorded for a step in `execution_results`
(the `status` field of the per-step result dict). -/
inductive StepRes where
  | completed
  | failed
deriving Repr, DecidableEq

/-- TaskService._create_task_dependencies (lines 147-154): record each step's
dependency set under its (truthy, i.e. nonempty) step id. -/
def createTaskDependencies (steps : List PStep)
    (taskDeps : List (String × List String)) : List (String × List String) :=
  steps.foldl
    (fun acc step =>
      if step.step_id = "" then acc
      else dset acc step.step_id step.dependencies) taskDeps

/-- The readiness test inside TaskService._get_execution_order (lines 253-258):
every plan step whose id is among this step's dependencies must already be in
the ordered list.  Dependency ids matching no plan step are ignored. -/
def readyInOrder (allSteps ordered : List PStep) (deps : List String) : Bool :=
  allSteps.all (fun depStep =>
    if depStep.step_id ∈ deps then
      decide (depStep.step_id ∈ ordered.map (fun t => t.step_id))
    else true)

/-- The `for step in ready_steps: remaining_steps.remove(step)` loop. -/
def removeSteps (remaining ready : List PStep) : List PStep :=
  ready.foldl (fun r x => r.erase x) remaining

/-- The while loop of TaskService._get_execution_order (lines 246-271).  When
no step is ready and unordered steps remain (a cycle), the remaining steps are
appended in their original order — there is no error.  The fuel bounds the
iterations; every productive iteration strictly shrinks `remaining`, so
`steps.length + 1` fuel reproduces the Python loop exactly. -/
def geoAux (taskDeps : List (String × List String)) (allSteps : List PStep) :
    Nat → List PStep → List PStep → List PStep
  | 0, ordered, remaining => ordered ++ remaining
  | fuel + 1, ordered, remaining =>
    if remaining.isEmpty then ordered
    else
      let ready := remaining.filter (fun step =>
        readyInOrder allSteps ordered ((dget taskDeps step.step_id).getD []))
      if ready.isEmpty then ordered ++ remaining
      else geoAux taskDeps allSteps fuel (ordered ++ ready)
        (removeSteps remaining ready)

/-- TaskService._get_execution_order (lines 240-272). -/
def getExecutionOrder (taskDeps : List (String × List String))
    (steps : List PStep) : List PStep :=
  geoAux taskDeps steps (steps.length + 1) [] steps

/-- Outcome of TaskService._wait_for_dependencies for one step (lines
274-284): `blocked` models the unbounded `await asyncio.sleep(0.1)` loop that
never ends when a dependency is absent from `execution_results` (execution is
sequential, so an absent dependency stays absent); `depFailed` models the
raised `Exception` when a dependency's recorded status is not completed. -/
inductive WaitErr where
  | blocked (depId : String)
  | depFailed (depId : String)
deriving Repr, DecidableEq

/-- TaskService._wait_for_dependencies (lines 274-284). -/
def waitDeps (results : List (String × StepRes)) :
    List String → Except WaitErr Unit
  | [] => .ok ()
  | depId :: rest =>
    match dget results depId with
    | none => .error (.blocked depId)
    | some .completed => waitDeps results rest
    | some .failed => .error (.depFailed depId)

/-- Outcome of the step loop of TaskService.execute_workflow. -/
inductive RunOutcome where
  | done (results : List (String × StepRes))
  | brokeAt (stepId : String) (results : List (String × StepRes))
      (rest : List PStep)
  | blockedAt (stepId depId : String) (results : List (String × StepRes))
      (rest : List PStep)
deriving Repr, DecidableEq

/-- The step loop of TaskService.execute_workflow (lines 176-205) at
intelligence level BASIC (so the recovery branch at lines 193-201 is never
taken): run the steps of the precomputed order one after the other; a step
whose dependencies completed is dispatched and its result recorded; any
exception (a failed dependency or a failed dispatch) records
`{status: failed}` for the step and `break`s out of the loop. -/
def runBasic (oracle : String → Bool) (taskDeps : List (String × List String)) :
    List PStep → List (String × StepRes) → RunOutcome
  | [], results => .done results
  | step :: rest, results =>
    let deps := (dget taskDeps step.step_id).getD []
    match waitDeps results deps with
    | .error (.blocked d) => .blockedAt step.step_id d results (step :: rest)
    | .error (.depFailed _) =>
      .brokeAt step.step_id (dset results step.step_id .failed) rest
    | .ok () =>
      if oracle step.step_id then
        runBasic oracle taskDeps rest (dset results step.step_id .completed)
      else
        .brokeAt step.step_id (dset results step.step_id .failed) rest

/-- The final status expression of TaskService.execute_workflow (line 209):
completed iff every recorded result has status completed, else failed. -/
def workflowStatusOf (results : List (String × StepRes)) : String :=
  if results.all (fun p => decide (p.2 = StepRes.completed)) then "completed"
  else "failed"

/-- Return value of TaskService.execute_workflow. -/
structure WfResult where
  status : String
  results : List (String × StepRes)
deriving Repr, DecidableEq

/-- TaskService.execute_workflow (lines 158-212) at intelligence level BASIC,
with per-step success given by `oracle`.  `none` models the coroutine never
returning (blocked forever inside _wait_for_dependencies). -/
def executeWorkflowBasic (oracle : String → Bool)
    (taskDeps : List (String × List String)) (steps : List PStep) :
    Option WfResult :=
  match runBasic oracle taskDeps (getExecutionOrder taskDeps steps) [] with
  | .done results => some ⟨workflowStatusOf results, results⟩
  | .brokeAt _ results _ => some ⟨workflowStatusOf results, results⟩
  | .blockedAt _ _ _ _ => none

/-- State of the task service relevant to plan mutation: `workflow_plans` and
`task_dependencies`. -/
structure WorkflowPlan where
  workflow_id : String
  steps : List PStep
deriving Repr, DecidableEq

/-- Stored plans and the dependency index of TaskService. -/
structure TaskServiceState where
  workflowPlans : List (String × WorkflowPlan)
  taskDependencies : List (String × List String)
deriving Repr, DecidableEq

/-- TaskService.add_dynamic_step (lines 544-577): raise ValueError for an
unknown workflow; otherwise append the converted step dict to the plan's step
list and overwrite the dependency entry for its step id.  There is no check
against an already-used step_id. -/
def addDynamicStep (ts : TaskServiceState) (workflowId : String)
    (dynamicStep : PStep) : Except String TaskServiceState :=
  match dget ts.workflowPlans workflowId with
  | none => .error ("Workflow " ++ workflowId ++ " not found")
  | some plan =>
    let plan1 := { plan with steps := plan.steps ++ [dynamicStep] }
    .ok { workflowPlans := dset ts.workflowPlans workflowId plan1,
          taskDependencies :=
            dset ts.taskDependencies dynamicStep.step_id
              dynamicStep.dependencies }

/-- TaskService._get_next_executable_steps (lines 657-680): steps not yet
executed whose dependencies (read from the step dict itself) are all executed
with status completed. -/
def nextExecutableSteps (allSteps : List PStep) (executed : List String)
    (results : List (String × StepRes)) : List PStep :=
  allSteps.filter (fun step =>
    if step.step_id ∈ executed then false
    else step.dependencies.all (fun depId =>
      decide (depId ∈ executed) &&
      decide (dget results depId = some StepRes.completed)))

/-- The while loop of TaskService.execute_workflow_with_delegation (lines
599-639), `max_iterations = 100`: each iteration executes every currently
executable step, recording completed on success and failed on exception, and
adding the step to `executed_steps` either way. -/
def delegLoop (oracle : String → Bool) (steps : List PStep) :
    Nat → List String → List (String × StepRes) →
    List (String × StepRes) × List String
  | 0, executed, results => (results, executed)
  | fuel + 1, executed, results =>
    let executable := nextExecutableSteps steps executed results
    if executable.isEmpty then (results, executed)
    else
      let step1 := executable.foldl
        (fun (acc : List (String × StepRes) × List String) step =>
          let r := if oracle step.step_id then StepRes.completed
                   else StepRes.failed
          (dset acc.1 step.step_id r, acc.2 ++ [step.step_id]))
        (results, executed)
      delegLoop oracle steps fuel step1.2 step1.1

/-- Return value of TaskService.execute_workflow_with_delegation. -/
structure DelegResult where
  status : String
  results : List (String × StepRes)
deriving Repr, DecidableEq

/-- TaskService.execute_workflow_with_delegation (lines 579-655) with per-step
success given by `oracle`: after the loop, the reported status is completed
when `successful_steps == total_steps` and completed_with_errors otherwise —
never failed. -/
def executeWorkflowWithDelegation (oracle : String → Bool)
    (steps : List PStep) : DelegResult :=
  let run := delegLoop oracle steps 100 [] []
  let successfulSteps :=
    (run.1.filter (fun p => decide (p.2 = StepRes.completed))).length
  let totalSteps := run.1.length
  { status := if successfulSteps = totalSteps then "completed"
              else "completed_with_errors",
    results := run.1 }

/-- TaskService._calculate_workflow_status (lines 507-520) over the list of
per-step status strings of get_workflow_status (a step with no execution
record contributes "pending"). -/
def calculateWorkflowStatus (statuses : List String) : String :=
  if statuses.any (fun st => decide (st = "failed")) then "failed"
  else if statuses.any (fun st => decide (st = "cancelled")) then "cancelled"
  else if statuses.any (fun st => decide (st = "running")) then "running"
  else if statuses.all (fun st => decide (st = "completed")) then "completed"
  else "pending"

/-- The loop of TaskService._retry_step_with_backoff (lines 406-418), from
attempt `i` on: sleep `backoff_factor ** attempt`, then dispatch the step
(`attempt i`, abstracting `self._execute_step`); return on the first success;
on failure re-raise if this was attempt `max_retries - 1`, else continue.
Returns the sleeps performed (one before each dispatch, in order) and the
final outcome; the outcome is `none` — Python falls off the loop returning
`None` — exactly when `max_retries` is 0. -/
def retryAux {E R : Type} (attempt : Nat → Except E R)
    (backoffFactor maxRetries : Nat) (i : Nat) :
    List Nat × Option (Except E R) :=
  if h : i < maxRetries then
    let sl := backoffFactor ^ i
    match attempt i with
    | .ok r => ([sl], some (.ok r))
    | .error e =>
      if i = maxRetries - 1 then ([sl], some (.error e))
      else
        let rest := retryAux attempt backoffFactor maxRetries (i + 1)
        (sl :: rest.1, rest.2)
  else ([], none)
termination_by maxRetries - i

/-- TaskService._retry_step_with_backoff (lines 406-418); the Python defaults
are `max_retries = 3`, `backoff_factor = 2`. -/
def retryStepWithBackoff {E R : Type} (attempt : Nat → Except E R)
    (maxRetries backoffFactor : Nat) : List Nat × Option (Except E R) :=
  retryAux attempt backoffFactor maxRetries 0

/-! ## Dictionary lemmas -/

theorem dget_dset {α : Type} (m : List (String × α)) (k k' : String) (v : α) :
    dget (dset m k v) k' = if k = k' then some v else dget m k' := by
  induction m with
  | nil => simp [dget, dset]
  | cons p rest ih =>
    obtain ⟨a, b⟩ := p
    by_cases hak : a = k
    · subst hak
      simp only [dset, if_pos rfl, dget]
      by_cases hkk : a = k'
      · simp [hkk]
      · simp [hkk]
    · simp only [dset, if_neg hak, dget]
      by_cases hak' : a = k'
      · subst hak'
        have hne : ¬ k = a := fun h => hak h.symm
        simp [hne]
      · simp [hak', ih]

theorem dget_dset_self {α : Type} (m : List (String × α)) (k : String)
    (v : α) : dget (dset m k v) k = some v := by
  simp [dget_dset]

theorem dget_dset_ne {α : Type} {m : List (String × α)} {k k' : String}
    {v : α} (h : k ≠ k') : dget (dset m k v) k' = dget m k' := by
  simp [dget_dset, h]

theorem dget_ddel_ne {α : Type} {m : List (String × α)} {k k' : String}
    (h : k ≠ k') : dget (ddel m k) k' = dget m k' := by
  induction m with
  | nil => simp [ddel]
  | cons p rest ih =>
    obtain ⟨a, b⟩ := p
    by_cases hak : a = k
    · subst hak
      have hne : ¬ a = k' := fun hh => h hh
      simp [ddel, dget, hne]
    · simp only [ddel, if_neg hak, dget]
      by_cases hak' : a = k'
      · simp [hak']
      · simp [hak', ih]

theorem dget_none_iff {α : Type} (m : List (String × α)) (k : String) :
    dget m k = none ↔ k ∉ m.map Prod.fst := by
  induction m with
  | nil => simp [dget]
  | cons p rest ih =>
    obtain ⟨a, b⟩ := p
    by_cases hak : a = k
    · subst hak
      simp [dget]
    · have hne : ¬ k = a := fun h => hak h.symm
      simp [dget, hak, ih, hne]

theorem dget_ddel_self {α : Type} (m : List (String × α)) (k : String)
    (hnd : (m.map Prod.fst).Nodup) : dget (ddel m k) k = none := by
  induction m with
  | nil => simp [ddel, dget]
  | cons p rest ih =>
    obtain ⟨a, b⟩ := p
    simp only [List.map_cons, List.nodup_cons] at hnd
    by_cases hak : a = k
    · subst hak
      simpa [ddel, dget_none_iff] using hnd.1
    · simp [ddel, hak, dget, ih hnd.2]

theorem dget_mem {α : Type} {m : List (String × α)} {k : String} {v : α}
    (h : dget m k = some v) : (k, v) ∈ m := by
  induction m with
  | nil => simp [dget] at h
  | cons p rest ih =>
    obtain ⟨a, b⟩ := p
    by_cases hak : a = k
    · subst hak
      rw [dget, if_pos rfl] at h
      injection h with h
      subst h
      exact List.mem_cons_self _ _
    · simp only [dget, if_neg hak] at h
      exact List.mem_cons_of_mem _ (ih h)

theorem dset_map_fst {α : Type} (m : List (String × α)) (k : String) (v : α) :
    (dset m k v).map Prod.fst =
      if k ∈ m.map Prod.fst then m.map Prod.fst else m.map Prod.fst ++ [k] := by
  induction m with
  | nil => simp [dset]
  | cons p rest ih =>
    obtain ⟨a, b⟩ := p
    by_cases hak : a = k
    · subst hak
      simp [dset]
    · have hne : ¬ k = a := fun h => hak h.symm
      by_cases hk : k ∈ rest.map Prod.fst
      · simp [dset, hak, ih, hk, hne]
      · simp [dset, hak, ih, hk, hne]

theorem dset_keys_nodup {α : Type} {m : List (String × α)} (k : String)
    (v : α) (hnd : (m.map Prod.fst).Nodup) :
    ((dset m k v).map Prod.fst).Nodup := by
  rw [dset_map_fst]
  by_cases hk : k ∈ m.map Prod.fst
  · simpa [hk]
  · simpa [hk, List.nodup_append] using hnd

theorem ddel_sublist {α : Type} (m : List (String × α)) (k : String) :
    (ddel m k).Sublist m := by
  induction m with
  | nil => simp [ddel]
  | cons p rest ih =>
    obtain ⟨a, b⟩ := p
    by_cases hak : a = k
    · simp [ddel, hak]
    · simpa [ddel, hak] using ih

theorem ddel_keys_nodup {α : Type} {m : List (String × α)} (k : String)
    (hnd : (m.map Prod.fst).Nodup) : ((ddel m k).map Prod.fst).Nodup :=
  List.Nodup.sublist (List.Sublist.map Prod.fst (ddel_sublist m k)) hnd

theorem dget_mapVals {α β : Type} (m : List (String × α))
    (g : String × α → β) (k : String) :
    dget (m.map (fun p => (p.1, g p))) k =
      (dget m k).map (fun v => g (k, v)) := by
  induction m with
  | nil => simp [dget]
  | cons p rest ih =>
    obtain ⟨a, b⟩ := p
    by_cases hak : a = k
    · subst hak
      simp [dget]
    · simp [dget, hak, ih]

theorem mapVals_map_fst {α β : Type} (m : List (String × α))
    (g : String × α → β) :
    (m.map (fun p => (p.1, g p))).map Prod.fst = m.map Prod.fst := by
  induction m with
  | nil => simp
  | cons p rest ih => simp [ih]

/-! ## Connection-graph lemmas and the symmetry invariant (claim C5) -/

/-- Reading a connection map directly: `conns.get(x, [])`. -/
def getC (c : List (String × List String)) (x : String) : List String :=
  (dget c x).getD []

theorem getConns_eq_getC (s : AgentService) (x : String) :
    getConns s x = getC s.agentConnections x := rfl

theorem mem_getC_ne_none {c : List (String × List String)} {x y : String}
    (h : y ∈ getC c x) : dget c x ≠ none := by
  intro hn
  rw [getC, hn] at h
  simp at h

theorem getC_ensureEntry (c : List (String × List String)) (k x : String) :
    getC (ensureEntry c k) x = getC c x := by
  unfold ensureEntry
  cases hk : dget c k with
  | some l => rfl
  | none =>
    by_cases hkx : k = x
    · subst hkx
      simp [getC, dget_dset_self, hk]
    · simp [getC, dget_dset_ne hkx]

theorem ensureEntry_key_sub {c : List (String × List String)} {k z : String}
    (h : dget (ensureEntry c k) z ≠ none) : z = k ∨ dget c z ≠ none := by
  unfold ensureEntry at h
  cases hk : dget c k with
  | some l =>
    rw [hk] at h
    exact .inr h
  | none =>
    rw [hk] at h
    by_cases hkz : k = z
    · exact .inl hkz.symm
    · rw [dget_dset_ne hkz] at h
      exact .inr h

theorem ensureEntry_keys_nodup {c : List (String × List String)} (k : String)
    (h : (c.map Prod.fst).Nodup) :
    ((ensureEntry c k).map Prod.fst).Nodup := by
  unfold ensureEntry
  cases dget c k with
  | some l => exact h
  | none => exact dset_keys_nodup k [] h

theorem getC_addEdge_self (c : List (String × List String)) (x y : String) :
    getC (addEdgeOneWay c x y) x =
      if y ∈ getC c x then getC c x else getC c x ++ [y] := by
  unfold addEdgeOneWay
  by_cases hy : y ∈ (dget c x).getD []
  · simp [getC, hy]
  · simp [getC, hy, dget_dset_self]

theorem getC_addEdge_other (c : List (String × List String)) {x x' : String}
    (y : String) (h : x ≠ x') :
    getC (addEdgeOneWay c x y) x' = getC c x' := by
  unfold addEdgeOneWay
  by_cases hy : y ∈ (dget c x).getD []
  · simp [hy]
  · simp [getC, hy, dget_dset_ne h]

theorem addEdge_key_sub {c : List (String × List String)} {x y z : String}
    (h : dget (addEdgeOneWay c x y) z ≠ none) : z = x ∨ dget c z ≠ none := by
  unfold addEdgeOneWay at h
  by_cases hy : y ∈ (dget c x).getD []
  · rw [if_pos hy] at h
    exact .inr h
  · rw [if_neg hy] at h
    by_cases hxz : x = z
    · exact .inl hxz.symm
    · rw [dget_dset_ne hxz] at h
      exact .inr h

theorem addEdge_keys_nodup {c : List (String × List String)} (x y : String)
    (h : (c.map Prod.fst).Nodup) :
    ((addEdgeOneWay c x y).map Prod.fst).Nodup := by
  unfold addEdgeOneWay
  by_cases hy : y ∈ (dget c x).getD []
  · simpa [hy]
  · simpa [hy] using dset_keys_nodup x _ h

theorem getC_removeEdge_self (c : List (String × List String)) (x y : String) :
    getC (removeEdgeOneWay c x y) x = (getC c x).erase y := by
  unfold removeEdgeOneWay
  cases hx : dget c x with
  | none => simp [getC, hx]
  | some l =>
    by_cases hy : y ∈ l
    · simp [getC, hy, dget_dset_self, hx]
    · simp [getC, hy, hx, List.erase_of_not_mem hy]

theorem getC_removeEdge_other (c : List (String × List String)) {x x' : String}
    (y : String) (h : x ≠ x') :
    getC (removeEdgeOneWay c x y) x' = getC c x' := by
  unfold removeEdgeOneWay
  cases hx : dget c x with
  | none => rfl
  | some l =>
    by_cases hy : y ∈ l
    · simp [getC, hy, dget_dset_ne h]
    · simp [hy]

theorem removeEdge_map_fst (c : List (String × List String)) (x y : String) :
    (removeEdgeOneWay c x y).map Prod.fst = c.map Prod.fst := by
  unfold removeEdgeOneWay
  cases hx : dget c x with
  | none => rfl
  | some l =>
    by_cases hy : y ∈ l
    · have hxk : x ∈ c.map Prod.fst := by
        by_contra hc
        have hn := (dget_none_iff c x).mpr hc
        rw [hx] at hn
        simp at hn
      simp [hy, dset_map_fst, hxk]
    · simp [hy]

theorem removeEdge_key_eq {c : List (String × List String)} (x y z : String) :
    dget (removeEdgeOneWay c x y) z = none ↔ dget c z = none := by
  rw [dget_none_iff, dget_none_iff, removeEdge_map_fst]

/-- The connection-graph invariant maintained by every registry operation:
well-formed key set, duplicate-free connection lists, connection keys and
members are stored agents, and the relation is symmetric. -/
structure Inv (s : AgentService) : Prop where
  keysNodup : (s.agentConnections.map Prod.fst).Nodup
  connsNodup : ∀ x, (getConns s x).Nodup
  keysAgents : ∀ x, dget s.agentConnections x ≠ none → dget s.agents x ≠ none
  valsAgents : ∀ x y, y ∈ getConns s x → dget s.agents y ≠ none
  symm : ∀ x y, y ∈ getConns s x → x ∈ getConns s y

theorem inv_transfer {t t' : AgentService} (h : Inv t)
    (hc : t'.agentConnections = t.agentConnections)
    (ha : ∀ y, dget t.agents y ≠ none → dget t'.agents y ≠ none) :
    Inv t' := by
  have hg : ∀ x, getConns t' x = getConns t x := by
    intro x
    rw [getConns_eq_getC, getConns_eq_getC, hc]
  exact
    { keysNodup := by rw [hc]; exact h.keysNodup
      connsNodup := fun x => by rw [hg]; exact h.connsNodup x
      keysAgents := fun x hx => ha x (h.keysAgents x (by rwa [hc] at hx))
      valsAgents := fun x y hy => ha y (h.valsAgents x y (by rwa [hg] at hy))
      symm := fun x y hy => by
        rw [hg]
        exact h.symm x y (by rwa [hg] at hy) }

theorem dget_dset_ne_none {α : Type} {m : List (String × α)} {k : String}
    (k' : String) (v : α) (h : dget m k ≠ none) :
    dget (dset m k' v) k ≠ none := by
  rw [dget_dset]
  by_cases hk : k' = k
  · simp [hk]
  · simpa [hk]

theorem inv_createAgent {s s' : AgentService} {wf aid : String} {mc : Nat}
    (hinv : Inv s) (hfresh : dget s.agents aid = none)
    (h : createAgent s wf aid mc = .ok s') : Inv s' := by
  simp only [createAgent] at h
  split at h
  · exact absurd h (by simp)
  · simp only [Except.ok.injEq] at h
    subst h
    have hcfresh : dget s.agentConnections aid = none := by
      by_contra hc
      exact hinv.keysAgents aid hc hfresh
    have hgc : ∀ x, getC (dset s.agentConnections aid []) x =
        if aid = x then [] else getConns s x := by
      intro x
      by_cases hax : aid = x
      · subst hax
        simp [getC, dget_dset_self]
      · simp [getC, dget_dset_ne hax, hax, getConns_eq_getC]
    refine ⟨?_, ?_, ?_, ?_, ?_⟩
    · exact dset_keys_nodup aid [] hinv.keysNodup
    · intro x
      rw [getConns_eq_getC]
      simp only [hgc x]
      by_cases hax : aid = x
      · simp [hax]
      · simp only [if_neg hax]
        exact hinv.connsNodup x
    · intro x hx
      by_cases hax : aid = x
      · subst hax
        simp [dget_dset_self]
      · rw [dget_dset_ne hax] at hx
        exact dget_dset_ne_none aid _ (hinv.keysAgents x hx)
    · intro x y hy
      rw [getConns_eq_getC] at hy
      simp only [hgc x] at hy
      by_cases hax : aid = x
      · simp [hax] at hy
      · rw [if_neg hax] at hy
        exact dget_dset_ne_none aid _ (hinv.valsAgents x y hy)
    · intro x y hy
      rw [getConns_eq_getC] at hy
      simp only [hgc x] at hy
      by_cases hax : aid = x
      · simp [hax] at hy
      · rw [if_neg hax] at hy
        have hyne : aid ≠ y := by
          intro he
          subst he
          exact hinv.valsAgents x aid hy hfresh
        rw [getConns_eq_getC]
        simp only [hgc y, if_neg hyne]
        exact hinv.symm x y hy

theorem inv_spawnChildAgent {s s' : AgentService} {pid cid : String}
    {mc : Nat} (hinv : Inv s) (hfresh : dget s.agents cid = none)
    (h : spawnChildAgent s pid cid mc = .ok s') : Inv s' := by
  unfold spawnChildAgent at h
  split at h
  · exact absurd h (by simp)
  · split at h
    · exact absurd h (by simp)
    · rename_i parent hp hlim
      split at h
      · exact absurd h (by simp)
      · rename_i s1 hcr
        have hinv1 : Inv s1 := inv_createAgent hinv hfresh hcr
        cases hc : dget s1.agents cid with
        | none =>
          rw [hc] at h
          dsimp only at h
          split at h
          · rename_i p hp2
            simp only [Except.ok.injEq] at h
            subst h
            exact inv_transfer hinv1 rfl
              (fun y hy => dget_dset_ne_none pid _ hy)
          · simp only [Except.ok.injEq] at h
            subst h
            exact hinv1
        | some child =>
          rw [hc] at h
          dsimp only at h
          have hinv2 : Inv ⟨dset s1.agents cid { child with parent_agent_id := some pid }, s1.agentConnections, s1.workflowAgents, s1.maxAgentsPerWorkflow⟩ :=
            inv_transfer hinv1 rfl (fun y hy => dget_dset_ne_none cid _ hy)
          split at h
          · rename_i p hp2
            simp only [Except.ok.injEq] at h
            subst h
            exact inv_transfer hinv2 rfl
              (fun y hy => dget_dset_ne_none pid _ hy)
          · simp only [Except.ok.injEq] at h
            subst h
            exact hinv2

theorem getC_addEdge_eval (c : List (String × List String)) (u v x : String) :
    getC (addEdgeOneWay c u v) x =
      if x = u then (if v ∈ getC c u then getC c u else getC c u ++ [v])
      else getC c x := by
  by_cases hxu : x = u
  · subst hxu
    simp [getC_addEdge_self]
  · rw [getC_addEdge_other _ _ (fun hh => hxu hh.symm)]
    simp [hxu]

theorem mem_addEdge_iff (c : List (String × List String)) (u v x y : String) :
    y ∈ getC (addEdgeOneWay c u v) x ↔
      y ∈ getC c x ∨ (x = u ∧ y = v) := by
  rw [getC_addEdge_eval]
  by_cases hxu : x = u
  · subst hxu
    by_cases hv : v ∈ getC c x
    · simp only [if_pos rfl, if_pos hv, true_and]
      constructor
      · intro hy
        exact .inl hy
      · rintro (hy | hy)
        · exact hy
        · rw [hy]; exact hv
    · simp [hv]
  · simp [hxu]

theorem getC_removeEdge_eval (c : List (String × List String)) (u v x : String) :
    getC (removeEdgeOneWay c u v) x =
      if x = u then (getC c u).erase v else getC c x := by
  by_cases hxu : x = u
  · subst hxu
    simp [getC_removeEdge_self]
  · rw [getC_removeEdge_other _ _ (fun hh => hxu hh.symm)]
    simp [hxu]

theorem mem_removeEdge_iff (c : List (String × List String)) (u v x y : String)
    (hnd : ∀ z, (getC c z).Nodup) :
    y ∈ getC (removeEdgeOneWay c u v) x ↔
      y ∈ getC c x ∧ ¬(x = u ∧ y = v) := by
  rw [getC_removeEdge_eval]
  by_cases hxu : x = u
  · rw [if_pos hxu]
    subst hxu
    rw [List.Nodup.mem_erase_iff (hnd x)]
    constructor
    · rintro ⟨hyv, hy⟩
      exact ⟨hy, fun hh => hyv hh.2⟩
    · rintro ⟨hy, hh⟩
      exact ⟨fun hv => hh ⟨rfl, hv⟩, hy⟩
  · simp [hxu]

theorem addEdge_nodup {c : List (String × List String)}
    (hnd : ∀ z, (getC c z).Nodup) (u v : String) :
    ∀ z, (getC (addEdgeOneWay c u v) z).Nodup := by
  intro z
  rw [getC_addEdge_eval]
  by_cases hzu : z = u
  · rw [if_pos hzu]
    by_cases hv : v ∈ getC c u
    · rw [if_pos hv]
      exact hnd u
    · rw [if_neg hv]
      simp [List.nodup_append, hnd u, hv]
  · rw [if_neg hzu]
    exact hnd z

theorem removeEdge_nodup {c : List (String × List String)}
    (hnd : ∀ z, (getC c z).Nodup) (u v : String) :
    ∀ z, (getC (removeEdgeOneWay c u v) z).Nodup := by
  intro z
  rw [getC_removeEdge_eval]
  by_cases hzu : z = u
  · simp only [if_pos hzu]
    exact (hnd u).erase v
  · simp only [if_neg hzu]
    exact hnd z

/-- Rebuild the invariant for a state whose connection map was replaced. -/
theorem inv_conns_update {s : AgentService}
    (c : List (String × List String))
    (hk : (c.map Prod.fst).Nodup)
    (hnd : ∀ x, (getC c x).Nodup)
    (hka : ∀ z, dget c z ≠ none → dget s.agents z ≠ none)
    (hva : ∀ x y, y ∈ getC c x → dget s.agents y ≠ none)
    (hsym : ∀ x y, y ∈ getC c x → x ∈ getC c y) :
    Inv { s with agentConnections := c } := by
  refine ⟨hk, ?_, ?_, ?_, ?_⟩
  · intro x
    exact hnd x
  · intro x hx
    exact hka x hx
  · intro x y hy
    exact hva x y hy
  · intro x y hy
    exact hsym x y hy

theorem inv_connectAgents {s s' : AgentService} {a b : String} {r : Bool}
    (hinv : Inv s) (h : connectAgents s a b = .ok (s', r)) : Inv s' := by
  simp only [connectAgents] at h
  split at h
  · rename_i A B hA hB
    split at h
    · exact absurd h (by simp)
    · split at h
      · exact absurd h (by simp)
      · rename_i hwf hne
        simp only [Prod.mk.injEq, Except.ok.injEq] at h
        obtain ⟨hs', _⟩ := h
        have hc2 : ∀ x, getC (ensureEntry (ensureEntry s.agentConnections a) b) x
            = getC s.agentConnections x := by
          intro x
          rw [getC_ensureEntry, getC_ensureEntry]
        have hmem : ∀ x y,
            y ∈ getC (addEdgeOneWay (addEdgeOneWay
                (ensureEntry (ensureEntry s.agentConnections a) b) a b) b a) x ↔
              y ∈ getC s.agentConnections x ∨ (x = a ∧ y = b) ∨ (x = b ∧ y = a) := by
          intro x y
          rw [mem_addEdge_iff, mem_addEdge_iff, hc2]
          tauto
        subst hs'
        refine inv_conns_update _ ?_ ?_ ?_ ?_ ?_
        · exact addEdge_keys_nodup b a (addEdge_keys_nodup a b
            (ensureEntry_keys_nodup b (ensureEntry_keys_nodup a hinv.keysNodup)))
        · intro x
          have hndx : ∀ z, (getC (ensureEntry (ensureEntry s.agentConnections a) b) z).Nodup := by
            intro z
            rw [hc2]
            exact hinv.connsNodup z
          exact addEdge_nodup (addEdge_nodup hndx a b) b a x
        · intro z hz
          rcases addEdge_key_sub hz with hzb | hz2
          · subst hzb
            simp [hB]
          · rcases addEdge_key_sub hz2 with hza | hz3
            · subst hza
              simp [hA]
            · rcases ensureEntry_key_sub hz3 with hzb | hz4
              · subst hzb
                simp [hB]
              · rcases ensureEntry_key_sub hz4 with hza | hz5
                · subst hza
                  simp [hA]
                · exact hinv.keysAgents z hz5
        · intro x y hy
          rcases (hmem x y).mp hy with hy2 | ⟨_, hyb⟩ | ⟨_, hya⟩
          · exact hinv.valsAgents x y hy2
          · rw [hyb]; simp [hB]
          · rw [hya]; simp [hA]
        · intro x y hy
          rcases (hmem x y).mp hy with hy2 | ⟨hxa, hyb⟩ | ⟨hxb, hya⟩
          · exact (hmem y x).mpr (.inl (hinv.symm x y hy2))
          · exact (hmem y x).mpr (.inr (.inr ⟨hyb, hxa⟩))
          · exact (hmem y x).mpr (.inr (.inl ⟨hya, hxb⟩))
  · simp only [Prod.mk.injEq, Except.ok.injEq] at h
    obtain ⟨hs', _⟩ := h
    subst hs'
    exact hinv

theorem inv_disconnectAgents {s s' : AgentService} {a b : String} {r : Bool}
    (hinv : Inv s) (h : disconnectAgents s a b = .ok (s', r)) : Inv s' := by
  simp only [disconnectAgents] at h
  split at h
  · rename_i A B hA hB
    simp only [Prod.mk.injEq, Except.ok.injEq] at h
    obtain ⟨hs', _⟩ := h
    have hnd0 : ∀ z, (getC s.agentConnections z).Nodup := hinv.connsNodup
    have hnd1 : ∀ z, (getC (removeEdgeOneWay s.agentConnections a b) z).Nodup :=
      removeEdge_nodup hnd0 a b
    have hmem : ∀ x y,
        y ∈ getC (removeEdgeOneWay (removeEdgeOneWay s.agentConnections a b) b a) x ↔
          y ∈ getC s.agentConnections x ∧ ¬(x = a ∧ y = b) ∧ ¬(x = b ∧ y = a) := by
      intro x y
      rw [mem_removeEdge_iff _ _ _ _ _ hnd1, mem_removeEdge_iff _ _ _ _ _ hnd0]
      tauto
    subst hs'
    refine inv_conns_update _ ?_ ?_ ?_ ?_ ?_
    · rw [removeEdge_map_fst, removeEdge_map_fst]
      exact hinv.keysNodup
    · exact removeEdge_nodup hnd1 b a
    · intro z hz
      refine hinv.keysAgents z ?_
      intro hn
      exact hz (((removeEdge_key_eq b a z).trans (removeEdge_key_eq a b z)).mpr hn)
    · intro x y hy
      exact hinv.valsAgents x y ((hmem x y).mp hy).1
    · intro x y hy
      obtain ⟨hy2, h1, h2⟩ := (hmem x y).mp hy
      refine (hmem y x).mpr ⟨hinv.symm x y hy2, ?_, ?_⟩
      · rintro ⟨hya, hxb⟩
        exact h2 ⟨hxb, hya⟩
      · rintro ⟨hyb, hxa⟩
        exact h1 ⟨hxa, hyb⟩
  · simp only [Prod.mk.injEq, Except.ok.injEq] at h
    obtain ⟨hs', _⟩ := h
    subst hs'
    exact hinv

theorem ddel_key_sub {α : Type} {m : List (String × α)} {k y : String}
    (h : dget (ddel m k) y ≠ none) : dget m y ≠ none := by
  rw [Ne, dget_none_iff] at h ⊢
  intro hy
  exact h (fun hmem =>
    hy (((ddel_sublist m k).map Prod.fst).subset hmem))

theorem strip_keys_nodup {c : List (String × List String)} (aid : String)
    (hk : (c.map Prod.fst).Nodup) :
    ((stripConns c aid).map Prod.fst).Nodup := by
  unfold stripConns
  refine ddel_keys_nodup aid ?_
  rw [mapVals_map_fst]
  exact hk

theorem strip_key_sub {c : List (String × List String)} {aid x : String}
    (h : dget (stripConns c aid) x ≠ none) : dget c x ≠ none := by
  unfold stripConns at h
  have h2 := ddel_key_sub h
  rw [dget_mapVals] at h2
  intro hn
  rw [hn] at h2
  exact h2 rfl

theorem getC_stripConns {c : List (String × List String)} {aid : String}
    (hk : (c.map Prod.fst).Nodup) (x : String) :
    getC (stripConns c aid) x =
      if x = aid then [] else (getC c x).erase aid := by
  unfold stripConns
  by_cases hx : x = aid
  · subst hx
    rw [getC, dget_ddel_self]
    · simp
    · rw [mapVals_map_fst]
      exact hk
  · rw [if_neg hx, getC, dget_ddel_ne (fun hh => hx hh.symm), dget_mapVals]
    cases hc : dget c x with
    | none => simp [getC, hc]
    | some l =>
      by_cases hal : aid ∈ l
      · simp [getC, hc, hal]
      · simp [getC, hc, hal, List.erase_of_not_mem hal]

/-- What delete_agent does to the registry: it only removes connection
entries, connection-list members and stored agents, never adds them. -/
def ShrinksTo (t s : AgentService) : Prop :=
  (∀ x, dget t.agentConnections x ≠ none → dget s.agentConnections x ≠ none) ∧
  (∀ x y, y ∈ getC t.agentConnections x → y ∈ getC s.agentConnections x) ∧
  (∀ y, dget t.agents y ≠ none → dget s.agents y ≠ none)

theorem shrinksTo_refl (s : AgentService) : ShrinksTo s s :=
  ⟨fun _ h => h, fun _ _ h => h, fun _ h => h⟩

theorem shrinksTo_trans {t u s : AgentService} (h1 : ShrinksTo t u)
    (h2 : ShrinksTo u s) : ShrinksTo t s :=
  ⟨fun x hx => h2.1 x (h1.1 x hx),
   fun x y hy => h2.2.1 x y (h1.2.1 x y hy),
   fun y hy => h2.2.2 y (h1.2.2 y hy)⟩

theorem inv_remove_agent {s : AgentService} (hinv : Inv s) (aid : String)
    (hkey : dget s.agentConnections aid = none)
    (hmem : ∀ x, aid ∉ getC s.agentConnections x) :
    Inv { s with agents := ddel s.agents aid } := by
  refine ⟨hinv.keysNodup, hinv.connsNodup, ?_, ?_, hinv.symm⟩
  · intro x hx
    have hxa : x ≠ aid := by
      intro hh
      rw [hh] at hx
      exact hx hkey
    have := hinv.keysAgents x hx
    rwa [show dget (ddel s.agents aid) x = dget s.agents x from
      dget_ddel_ne (fun hh => hxa hh.symm)]
  · intro x y hy
    have hya : y ≠ aid := fun hh => hmem x (hh ▸ hy)
    have := hinv.valsAgents x y hy
    rwa [show dget (ddel s.agents aid) y = dget s.agents y from
      dget_ddel_ne (fun hh => hya hh.symm)]

theorem fold_delete_inv (fuel : Nat)
    (ih : ∀ (s : AgentService) (aid : String), Inv s →
      Inv (deleteAgent fuel s aid).1 ∧ ShrinksTo (deleteAgent fuel s aid).1 s) :
    ∀ (children : List String) (t : AgentService), Inv t →
      Inv (children.foldl (fun acc childId => (deleteAgent fuel acc childId).1) t) ∧
      ShrinksTo (children.foldl (fun acc childId => (deleteAgent fuel acc childId).1) t) t := by
  intro children
  induction children with
  | nil =>
    intro t ht
    exact ⟨ht, shrinksTo_refl t⟩
  | cons c cs ihc =>
    intro t ht
    obtain ⟨h1, hsh1⟩ := ih t c ht
    obtain ⟨h2, hsh2⟩ := ihc (deleteAgent fuel t c).1 h1
    simp only [List.foldl_cons]
    exact ⟨h2, shrinksTo_trans hsh2 hsh1⟩

theorem inv_deleteAgent : ∀ (fuel : Nat) (s : AgentService) (aid : String),
    Inv s → Inv (deleteAgent fuel s aid).1 ∧
      ShrinksTo (deleteAgent fuel s aid).1 s := by
  intro fuel
  induction fuel with
  | zero =>
    intro s aid hinv
    exact ⟨hinv, shrinksTo_refl s⟩
  | succ fuel ih =>
    intro s aid hinv
    cases hag : dget s.agents aid with
    | none =>
      have he : deleteAgent (fuel + 1) s aid = (s, false) := by
        simp [deleteAgent, hag]
      rw [he]
      exact ⟨hinv, shrinksTo_refl s⟩
    | some agent =>
      simp only [deleteAgent]
      rw [hag]
      dsimp only
      cases hd : dget s.agentConnections aid with
      | none =>
        dsimp only
        have hinv1 : Inv { s with workflowAgents :=
            (match dget s.workflowAgents agent.workflow_id with
            | some l => if aid ∈ l then
                dset s.workflowAgents agent.workflow_id (l.erase aid)
              else s.workflowAgents
            | none => s.workflowAgents) } :=
          ⟨hinv.keysNodup, hinv.connsNodup, hinv.keysAgents,
            hinv.valsAgents, hinv.symm⟩
        have hmem2 : ∀ x, aid ∉ getC s.agentConnections x := by
          intro x hx
          have := hinv.symm x aid hx
          rw [getConns_eq_getC, getC, hd] at this
          simp at this
        obtain ⟨hinv3, hsh3⟩ := fold_delete_inv fuel ih agent.child_agents _ hinv1
        have hkey3 : dget (agent.child_agents.foldl
            (fun acc childId => (deleteAgent fuel acc childId).1)
            { s with workflowAgents :=
              (match dget s.workflowAgents agent.workflow_id with
              | some l => if aid ∈ l then
                  dset s.workflowAgents agent.workflow_id (l.erase aid)
                else s.workflowAgents
              | none => s.workflowAgents) }).agentConnections aid = none := by
          by_contra hc
          exact absurd (hsh3.1 aid hc) (fun hk => hk hd)
        have hmem3 : ∀ x, aid ∉ getC (agent.child_agents.foldl
            (fun acc childId => (deleteAgent fuel acc childId).1)
            { s with workflowAgents :=
              (match dget s.workflowAgents agent.workflow_id with
              | some l => if aid ∈ l then
                  dset s.workflowAgents agent.workflow_id (l.erase aid)
                else s.workflowAgents
              | none => s.workflowAgents) }).agentConnections x := by
          intro x hx
          exact hmem2 x (hsh3.2.1 x aid hx)
        refine ⟨inv_remove_agent hinv3 aid hkey3 hmem3, ?_⟩
        refine shrinksTo_trans (t := _) (u := _) ?_ hsh3
        exact ⟨fun x hx => hx, fun x y hy => hy,
          fun y hy => ddel_key_sub hy⟩
      | some cl =>
        dsimp only
        have hinv1 : Inv { s with workflowAgents :=
            (match dget s.workflowAgents agent.workflow_id with
            | some l => if aid ∈ l then
                dset s.workflowAgents agent.workflow_id (l.erase aid)
              else s.workflowAgents
            | none => s.workflowAgents) } :=
          ⟨hinv.keysNodup, hinv.connsNodup, hinv.keysAgents,
            hinv.valsAgents, hinv.symm⟩
        have hchar : ∀ x, getC (stripConns s.agentConnections aid) x =
            if x = aid then [] else (getC s.agentConnections x).erase aid :=
          fun x => getC_stripConns hinv.keysNodup x
        have hinv2 : Inv { s with
            workflowAgents :=
              (match dget s.workflowAgents agent.workflow_id with
              | some l => if aid ∈ l then
                  dset s.workflowAgents agent.workflow_id (l.erase aid)
                else s.workflowAgents
              | none => s.workflowAgents),
            agentConnections := stripConns s.agentConnections aid } := by
          refine ⟨strip_keys_nodup aid hinv.keysNodup, ?_, ?_, ?_, ?_⟩
          · intro x
            rw [getConns_eq_getC]
            show (getC (stripConns s.agentConnections aid) x).Nodup
            rw [hchar]
            by_cases hx : x = aid
            · simp [hx]
            · simp only [if_neg hx]
              exact (hinv.connsNodup x).erase aid
          · intro x hx
            exact hinv.keysAgents x (strip_key_sub hx)
          · intro x y hy
            rw [getConns_eq_getC] at hy
            replace hy : y ∈ getC (stripConns s.agentConnections aid) x := hy
            rw [hchar] at hy
            by_cases hx : x = aid
            · rw [if_pos hx] at hy
              simp at hy
            · rw [if_neg hx] at hy
              exact hinv.valsAgents x y (List.mem_of_mem_erase hy)
          · intro x y hy
            rw [getConns_eq_getC] at hy ⊢
            replace hy : y ∈ getC (stripConns s.agentConnections aid) x := hy
            show x ∈ getC (stripConns s.agentConnections aid) y
            rw [hchar] at hy
            rw [hchar]
            by_cases hx : x = aid
            · rw [if_pos hx] at hy
              simp at hy
            · rw [if_neg hx] at hy
              obtain ⟨hya, hy2⟩ :=
                (List.Nodup.mem_erase_iff (hinv.connsNodup x)).mp hy
              rw [if_neg hya]
              exact (List.Nodup.mem_erase_iff (hinv.connsNodup y)).mpr
                ⟨hx, hinv.symm x y hy2⟩
        have hkey2 : dget (stripConns s.agentConnections aid) aid = none := by
          unfold stripConns
          refine dget_ddel_self _ aid ?_
          rw [mapVals_map_fst]
          exact hinv.keysNodup
        have hmem2 : ∀ x, aid ∉ getC (stripConns s.agentConnections aid) x := by
          intro x hx
          rw [hchar] at hx
          by_cases hxa : x = aid
          · rw [if_pos hxa] at hx
            simp at hx
          · rw [if_neg hxa] at hx
            exact (List.Nodup.mem_erase_iff (hinv.connsNodup x)).mp hx |>.1 rfl
        obtain ⟨hinv3, hsh3⟩ := fold_delete_inv fuel ih agent.child_agents _ hinv2
        have hkey3 : dget (agent.child_agents.foldl
            (fun acc childId => (deleteAgent fuel acc childId).1)
            { s with
              workflowAgents :=
                (match dget s.workflowAgents agent.workflow_id with
                | some l => if aid ∈ l then
                    dset s.workflowAgents agent.workflow_id (l.erase aid)
                  else s.workflowAgents
                | none => s.workflowAgents),
              agentConnections := stripConns s.agentConnections aid }).agentConnections aid = none := by
          by_contra hc
          exact absurd (hsh3.1 aid hc) (fun hk => hk hkey2)
        have hmem3 : ∀ x, aid ∉ getC (agent.child_agents.foldl
            (fun acc childId => (deleteAgent fuel acc childId).1)
            { s with
              workflowAgents :=
                (match dget s.workflowAgents agent.workflow_id with
                | some l => if aid ∈ l then
                    dset s.workflowAgents agent.workflow_id (l.erase aid)
                  else s.workflowAgents
                | none => s.workflowAgents),
              agentConnections := stripConns s.agentConnections aid }).agentConnections x := by
          intro x hx
          exact hmem2 x (hsh3.2.1 x aid hx)
        refine ⟨inv_remove_agent hinv3 aid hkey3 hmem3, ?_⟩
        have hshFinal : ShrinksTo { s with
            workflowAgents :=
              (match dget s.workflowAgents agent.workflow_id with
              | some l => if aid ∈ l then
                  dset s.workflowAgents agent.workflow_id (l.erase aid)
                else s.workflowAgents
              | none => s.workflowAgents),
            agentConnections := stripConns s.agentConnections aid } s := by
          refine ⟨?_, ?_, fun y hy => hy⟩
          · intro x hx
            exact strip_key_sub hx
          · intro x y hy
            replace hy : y ∈ getC (stripConns s.agentConnections aid) x := hy
            rw [hchar] at hy
            by_cases hx : x = aid
            · rw [if_pos hx] at hy
              simp at hy
            · rw [if_neg hx] at hy
              exact List.mem_of_mem_erase hy
        refine shrinksTo_trans (t := _) (u := _) ?_
          (shrinksTo_trans hsh3 hshFinal)
        exact ⟨fun x hx => hx, fun x y hy => hy,
          fun y hy => ddel_key_sub hy⟩

/-- Registry states reachable from a fresh `AgentService` (empty maps, lines
25-31) through the registry operations.  The freshness hypotheses on create
and spawn model the uniqueness of the generated `uuid4` ids. -/
inductive Reachable : AgentService → Prop where
  | init (cap : Nat) : Reachable ⟨[], [], [], cap⟩
  | create {s s' : AgentService} {wf aid : String} {mc : Nat} :
      Reachable s → dget s.agents aid = none →
      createAgent s wf aid mc = .ok s' → Reachable s'
  | spawn {s s' : AgentService} {pid cid : String} {mc : Nat} :
      Reachable s → dget s.agents cid = none →
      spawnChildAgent s pid cid mc = .ok s' → Reachable s'
  | connect {s s' : AgentService} {a b : String} {r : Bool} :
      Reachable s → connectAgents s a b = .ok (s', r) → Reachable s'
  | disconnect {s s' : AgentService} {a b : String} {r : Bool} :
      Reachable s → disconnectAgents s a b = .ok (s', r) → Reachable s'
  | delete {s : AgentService} {fuel : Nat} {aid : String} :
      Reachable s → Reachable (deleteAgent fuel s aid).1

theorem reachable_inv {s : AgentService} (h : Reachable s) : Inv s := by
  induction h with
  | init cap =>
    refine ⟨?_, ?_, ?_, ?_, ?_⟩ <;>
      simp [getConns, getC, dget]
  | create _ hf hc ih => exact inv_createAgent ih hf hc
  | spawn _ hf hc ih => exact inv_spawnChildAgent ih hf hc
  | connect _ hc ih => exact inv_connectAgents ih hc
  | disconnect _ hc ih => exact inv_disconnectAgents ih hc
  | delete _ ih => exact (inv_deleteAgent _ _ _ ih).1

/-- C5: after any sequence of agent-registry operations (create_agent,
spawn_child_agent, connect_agents, disconnect_agents, delete_agent), the
connection relation is symmetric: A's id is in B's connection list iff B's id
is in A's connection list. -/
theorem reachable_connections_symmetric (s : AgentService) (h : Reachable s)
    (a b : String) : b ∈ getConns s a ↔ a ∈ getConns s b :=
  ⟨fun hy => (reachable_inv h).symm a b hy,
   fun hy => (reachable_inv h).symm b a hy⟩

/-- The registry state reached by create(a); create(b); connect(a, b). -/
def sWitC : AgentService :=
  ⟨[("a", ⟨"a", "w", none, 5, []⟩), ("b", ⟨"b", "w", none, 5, []⟩)],
   [("a", ["b"]), ("b", ["a"])], [("w", ["a", "b"])], 100⟩

/-- Witness for C5 at a concrete reachable state with a real connection. -/
theorem reachable_connections_symmetric_witness :
    ("b" ∈ getConns sWitC "a" ↔ "a" ∈ getConns sWitC "b") ∧
      "b" ∈ getConns sWitC "a" := by
  have r0 : Reachable (⟨[], [], [], 100⟩ : AgentService) := .init 100
  have e1 : createAgent (⟨[], [], [], 100⟩ : AgentService) "w" "a" 5 =
      .ok ⟨[("a", ⟨"a", "w", none, 5, []⟩)], [("a", [])], [("w", ["a"])], 100⟩ := by
    rfl
  have r1 := Reachable.create r0 (by rfl) e1
  have e2 : createAgent
      (⟨[("a", ⟨"a", "w", none, 5, []⟩)], [("a", [])], [("w", ["a"])], 100⟩ :
        AgentService) "w" "b" 5 =
      .ok ⟨[("a", ⟨"a", "w", none, 5, []⟩), ("b", ⟨"b", "w", none, 5, []⟩)],
        [("a", []), ("b", [])], [("w", ["a", "b"])], 100⟩ := by
    rfl
  have r2 := Reachable.create r1 (by rfl) e2
  have e3 : connectAgents
      (⟨[("a", ⟨"a", "w", none, 5, []⟩), ("b", ⟨"b", "w", none, 5, []⟩)],
        [("a", []), ("b", [])], [("w", ["a", "b"])], 100⟩ : AgentService)
      "a" "b" = .ok (sWitC, true) := by
    rfl
  have r3 := Reachable.connect r2 e3
  exact ⟨reachable_connections_symmetric sWitC r3 "a" "b", by decide⟩

/-! ## Equational descriptions of connect and disconnect (claims C6, C7) -/

/-- The composed connection-map update performed by connect_agents
(lines 211-221): ensure both entries exist, then append each direction if
absent. -/
def connectConns (c : List (String × List String)) (a b : String) :
    List (String × List String) :=
  addEdgeOneWay (addEdgeOneWay (ensureEntry (ensureEntry c a) b) a b) b a

/-- The composed connection-map update performed by disconnect_agents
(lines 246-253): remove each direction if present. -/
def disconnectConns (c : List (String × List String)) (a b : String) :
    List (String × List String) :=
  removeEdgeOneWay (removeEdgeOneWay c a b) b a

theorem connect_eq {s : AgentService} {a b : String} {A B : Agent}
    (hA : dget s.agents a = some A) (hB : dget s.agents b = some B)
    (hwf : A.workflow_id = B.workflow_id) (hab : a ≠ b) :
    connectAgents s a b =
      .ok ({ s with agentConnections := connectConns s.agentConnections a b },
        true) := by
  simp only [connectAgents, hA, hB]
  rw [if_neg (fun hc => hc hwf), if_neg hab]
  rfl

theorem disconnect_eq {s : AgentService} {a b : String} {A B : Agent}
    (hA : dget s.agents a = some A) (hB : dget s.agents b = some B) :
    disconnectAgents s a b =
      .ok ({ s with agentConnections :=
        disconnectConns s.agentConnections a b }, true) := by
  simp only [disconnectAgents, hA, hB]
  rfl

theorem getC_connectConns_a {c : List (String × List String)} {a b : String}
    (hab : a ≠ b) (hnab : b ∉ getC c a) :
    getC (connectConns c a b) a = getC c a ++ [b] := by
  unfold connectConns
  rw [getC_addEdge_other _ _ (fun hh => hab hh.symm), getC_addEdge_self,
    getC_ensureEntry, getC_ensureEntry, if_neg hnab]

theorem getC_connectConns_b {c : List (String × List String)} {a b : String}
    (hab : a ≠ b) (hnba : a ∉ getC c b) :
    getC (connectConns c a b) b = getC c b ++ [a] := by
  unfold connectConns
  rw [getC_addEdge_self, getC_addEdge_other _ _ hab,
    getC_ensureEntry, getC_ensureEntry, if_neg hnba]

theorem getC_connectConns_other {c : List (String × List String)}
    {a b x : String} (hxa : x ≠ a) (hxb : x ≠ b) :
    getC (connectConns c a b) x = getC c x := by
  unfold connectConns
  rw [getC_addEdge_other _ _ (fun hh => hxb hh.symm),
    getC_addEdge_other _ _ (fun hh => hxa hh.symm),
    getC_ensureEntry, getC_ensureEntry]

theorem ensureEntry_of_some {c : List (String × List String)} {k : String}
    (h : dget c k ≠ none) : ensureEntry c k = c := by
  unfold ensureEntry
  cases hd : dget c k with
  | none => exact absurd hd h
  | some l => rfl

theorem addEdge_of_mem {c : List (String × List String)} {x y : String}
    (h : y ∈ getC c x) : addEdgeOneWay c x y = c := by
  show (if y ∈ getC c x then c else dset c x (getC c x ++ [y])) = c
  rw [if_pos h]

theorem connectConns_noop {c : List (String × List String)} {a b : String}
    (ha : dget c a ≠ none) (hb : dget c b ≠ none)
    (hmab : b ∈ getC c a) (hmba : a ∈ getC c b) :
    connectConns c a b = c := by
  unfold connectConns
  rw [ensureEntry_of_some ha, ensureEntry_of_some hb, addEdge_of_mem hmab,
    addEdge_of_mem hmba]

theorem count_append_self {l : List String} {b : String} (h : b ∉ l) :
    (l ++ [b]).count b = 1 := by
  rw [List.count_append, List.count_eq_zero.mpr h]
  simp

theorem erase_append_self {l : List String} {b : String} (h : b ∉ l) :
    (l ++ [b]).erase b = l := by
  rw [List.erase_append_right _ h]
  simp

/-- C6 (amended): for existing agents a ≠ b of the same workflow that are not
yet connected, connecting twice leaves exactly one occurrence of each id in
the other's connection list (the second connect is a no-op on the state), and
a subsequent disconnect restores both connection lists — and every other
agent's list — to their state before the first connect. -/
theorem connect_idempotent_disconnect_inverse
    (s : AgentService) (a b : String) (A B : Agent)
    (hA : dget s.agents a = some A) (hB : dget s.agents b = some B)
    (hwf : A.workflow_id = B.workflow_id) (hab : a ≠ b)
    (hnab : b ∉ getConns s a) (hnba : a ∉ getConns s b) :
    ∃ s1 : AgentService, connectAgents s a b = .ok (s1, true) ∧
      connectAgents s1 a b = .ok (s1, true) ∧
      (getConns s1 a).count b = 1 ∧ (getConns s1 b).count a = 1 ∧
      ∃ s2 : AgentService, disconnectAgents s1 a b = .ok (s2, true) ∧
        getConns s2 a = getConns s a ∧ getConns s2 b = getConns s b ∧
        ∀ x, x ≠ a → x ≠ b → getConns s2 x = getConns s x := by
  have hga : getC (connectConns s.agentConnections a b) a
      = getC s.agentConnections a ++ [b] := getC_connectConns_a hab hnab
  have hgb : getC (connectConns s.agentConnections a b) b
      = getC s.agentConnections b ++ [a] := getC_connectConns_b hab hnba
  have hmb : b ∈ getC (connectConns s.agentConnections a b) a := by
    rw [hga]
    simp
  have hma : a ∈ getC (connectConns s.agentConnections a b) b := by
    rw [hgb]
    simp
  refine ⟨{ s with agentConnections := connectConns s.agentConnections a b },
    connect_eq hA hB hwf hab, ?_, ?_, ?_, ?_⟩
  · rw [connect_eq (s := ⟨s.agents, connectConns s.agentConnections a b,
      s.workflowAgents, s.maxAgentsPerWorkflow⟩) hA hB hwf hab]
    dsimp only
    rw [connectConns_noop (mem_getC_ne_none hmb) (mem_getC_ne_none hma)
      hmb hma]
  · show (getC (connectConns s.agentConnections a b) a).count b = 1
    rw [hga]
    exact count_append_self hnab
  · show (getC (connectConns s.agentConnections a b) b).count a = 1
    rw [hgb]
    exact count_append_self hnba
  · refine ⟨_, disconnect_eq hA hB, ?_, ?_, ?_⟩
    · show getC (disconnectConns (connectConns s.agentConnections a b) a b) a
        = getConns s a
      unfold disconnectConns
      rw [getC_removeEdge_other _ _ (fun hh => hab hh.symm),
        getC_removeEdge_self, hga]
      exact erase_append_self hnab
    · show getC (disconnectConns (connectConns s.agentConnections a b) a b) b
        = getConns s b
      unfold disconnectConns
      rw [getC_removeEdge_self, getC_removeEdge_other _ _ hab, hgb]
      exact erase_append_self hnba
    · intro x hxa hxb
      show getC (disconnectConns (connectConns s.agentConnections a b) a b) x
        = getConns s x
      unfold disconnectConns
      rw [getC_removeEdge_other _ _ (fun hh => hxb hh.symm),
        getC_removeEdge_other _ _ (fun hh => hxa hh.symm),
        getC_connectConns_other hxa hxb]
      rfl

/-- The registry state with two connectable but unconnected agents. -/
def sWit6 : AgentService :=
  ⟨[("a", ⟨"a", "w", none, 5, []⟩), ("b", ⟨"b", "w", none, 5, []⟩)],
   [("a", []), ("b", [])], [("w", ["a", "b"])], 100⟩

/-- Witness for C6 at a concrete two-agent state. -/
theorem connect_idempotent_disconnect_inverse_witness :
    ∃ s1 : AgentService, connectAgents sWit6 "a" "b" = .ok (s1, true) ∧
      connectAgents s1 "a" "b" = .ok (s1, true) ∧
      (getConns s1 "a").count "b" = 1 ∧ (getConns s1 "b").count "a" = 1 ∧
      ∃ s2 : AgentService, disconnectAgents s1 "a" "b" = .ok (s2, true) ∧
        getConns s2 "a" = getConns sWit6 "a" ∧
        getConns s2 "b" = getConns sWit6 "b" ∧
        ∀ x, x ≠ "a" → x ≠ "b" → getConns s2 x = getConns sWit6 x :=
  connect_idempotent_disconnect_inverse sWit6 "a" "b"
    ⟨"a", "w", none, 5, []⟩ ⟨"b", "w", none, 5, []⟩
    rfl rfl rfl (by decide) (by decide) (by decide)

/-- Counterexample to C6 as stated: when a and b are already connected, the
sequence connect, connect, disconnect leaves a's connection list empty rather
than restoring its pre-connect state ["b"]. -/
theorem connect_disconnect_not_inverse_cex :
    connectAgents sWitC "a" "b" = .ok (sWitC, true) ∧
    disconnectAgents sWitC "a" "b" =
      .ok (⟨sWitC.agents, [("a", []), ("b", [])], sWitC.workflowAgents, 100⟩,
        true) ∧
    getConns sWitC "a" = ["b"] ∧
    getConns (⟨sWitC.agents, [("a", []), ("b", [])],
      sWitC.workflowAgents, 100⟩ : AgentService) "a" = [] :=
  ⟨rfl, rfl, rfl, rfl⟩

/-- C7 (amended): connect_agents and disconnect_agents return False — not a
NotFound error — when either agent id is unknown, leaving the state
unchanged; connect_agents raises AgentConnectionError (not a distinct
InvalidRequest) for cross-workflow pairs and self-connection; and
disconnect_agents performs no cross-workflow or self validation at all,
succeeding for any pair of existing agents (the legacy variant additionally
returns False without mutating anything when the agents are not connected). -/
theorem connect_disconnect_validation :
    (∀ (s : AgentService) (a b : String),
      (dget s.agents a = none ∨ dget s.agents b = none) →
      connectAgents s a b = .ok (s, false) ∧
      disconnectAgents s a b = .ok (s, false) ∧
      disconnectAgentsLegacy s a b = .ok (s, false))
    ∧ (∀ (s : AgentService) (a b : String) (A B : Agent),
      dget s.agents a = some A → dget s.agents b = some B →
      A.workflow_id ≠ B.workflow_id →
      connectAgents s a b = .error (.connectionError a b
        "Agents must be in the same workflow"))
    ∧ (∀ (s : AgentService) (a : String) (A : Agent),
      dget s.agents a = some A →
      connectAgents s a a = .error (.connectionError a a
        "Agent cannot connect to itself"))
    ∧ (∀ (s : AgentService) (a b : String) (A B : Agent),
      dget s.agents a = some A → dget s.agents b = some B →
      A.workflow_id = B.workflow_id → a ≠ b →
      connectAgents s a b = .ok (⟨s.agents,
        connectConns s.agentConnections a b, s.workflowAgents,
        s.maxAgentsPerWorkflow⟩, true))
    ∧ (∀ (s : AgentService) (a b : String) (A B : Agent),
      dget s.agents a = some A → dget s.agents b = some B →
      disconnectAgents s a b = .ok (⟨s.agents,
        disconnectConns s.agentConnections a b, s.workflowAgents,
        s.maxAgentsPerWorkflow⟩, true))
    ∧ (∀ (s : AgentService) (a b : String) (A B : Agent),
      dget s.agents a = some A → dget s.agents b = some B →
      b ∉ getConns s a → a ∉ getConns s b →
      disconnectAgentsLegacy s a b = .ok (s, false)) := by
  refine ⟨?_, ?_, ?_, ?_, ?_, ?_⟩
  · intro s a b h
    rcases h with ha | hb
    · exact ⟨by simp [connectAgents, ha], by simp [disconnectAgents, ha],
        by simp [disconnectAgentsLegacy, ha]⟩
    · cases hA : dget s.agents a with
      | none =>
        exact ⟨by simp [connectAgents, hA], by simp [disconnectAgents, hA],
          by simp [disconnectAgentsLegacy, hA]⟩
      | some A =>
        exact ⟨by simp [connectAgents, hA, hb],
          by simp [disconnectAgents, hA, hb],
          by simp [disconnectAgentsLegacy, hA, hb]⟩
  · intro s a b A B hA hB hwf
    simp only [connectAgents, hA, hB]
    rw [if_pos hwf]
  · intro s a A hA
    simp only [connectAgents, hA]
    rw [if_neg (fun hc => hc rfl)]
    simp
  · intro s a b A B hA hB hwf hab
    exact connect_eq hA hB hwf hab
  · intro s a b A B hA hB
    exact disconnect_eq hA hB
  · intro s a b A B hA hB hnab hnba
    simp only [disconnectAgentsLegacy, hA, hB]
    rw [if_pos ⟨hnab, hnba⟩]

/-- Counterexample to C7 as stated: with an empty registry, connect_agents on
two unknown ids returns ok False instead of failing with a NotFound error
(same for disconnect_agents). -/
theorem connect_unknown_no_error_cex :
    connectAgents (⟨[], [], [], 100⟩ : AgentService) "x" "y" =
      .ok (⟨[], [], [], 100⟩, false) ∧
    disconnectAgents (⟨[], [], [], 100⟩ : AgentService) "x" "y" =
      .ok (⟨[], [], [], 100⟩, false) :=
  ⟨rfl, rfl⟩

/-- Witness for C7 on a concrete registry with no agents. -/
theorem connect_disconnect_validation_witness :
    connectAgents (⟨[], [], [], 50⟩ : AgentService) "u" "v" =
      .ok (⟨[], [], [], 50⟩, false) ∧
    disconnectAgents (⟨[], [], [], 50⟩ : AgentService) "u" "v" =
      .ok (⟨[], [], [], 50⟩, false) ∧
    disconnectAgentsLegacy (⟨[], [], [], 50⟩ : AgentService) "u" "v" =
      .ok (⟨[], [], [], 50⟩, false) :=
  connect_disconnect_validation.1 ⟨[], [], [], 50⟩ "u" "v" (.inl rfl)

/-! ## Agent creation and spawning limits (claims C8, C10) -/

theorem createAgent_ok {s : AgentService} {wf aid : String} {mc : Nat}
    (hcap : ((dget s.workflowAgents wf).getD []).length <
      s.maxAgentsPerWorkflow) :
    createAgent s wf aid mc = .ok ⟨dset s.agents aid ⟨aid, wf, none, mc, []⟩,
      dset s.agentConnections aid [],
      dset s.workflowAgents wf (((dget s.workflowAgents wf).getD []) ++ [aid]),
      s.maxAgentsPerWorkflow⟩ := by
  simp only [createAgent]
  rw [if_neg (not_le.mpr hcap)]

/-- C8: with an existing parent, spawn_child_agent raises
AgentLimitExceededError and creates nothing once the parent has
max_child_agents children; below that bound (and below the workflow cap, with
a fresh child id) the spawn succeeds, storing the child with its parent
back-reference and appending it to the parent's child list. -/
theorem spawn_child_limit (s : AgentService) (p c : String) (mc : Nat)
    (parent : Agent) (hp : dget s.agents p = some parent) :
    (parent.child_agents.length ≥ parent.max_child_agents →
      spawnChildAgent s p c mc = .error (.limitExceeded "Child agents"
        parent.child_agents.length parent.max_child_agents))
    ∧ (parent.child_agents.length < parent.max_child_agents →
      ((dget s.workflowAgents parent.workflow_id).getD []).length <
        s.maxAgentsPerWorkflow →
      dget s.agents c = none →
      ∃ s' : AgentService, spawnChildAgent s p c mc = .ok s' ∧
        dget s'.agents c = some ⟨c, parent.workflow_id, some p, mc, []⟩ ∧
        dget s'.agents p = some { parent with
          child_agents := parent.child_agents ++ [c] }) := by
  constructor
  · intro hlim
    simp only [spawnChildAgent, hp]
    rw [if_pos hlim]
  · intro hlim hcap hfresh
    have hcp : c ≠ p := by
      intro hh
      rw [hh, hp] at hfresh
      cases hfresh
    simp only [spawnChildAgent, hp]
    rw [if_neg (not_le.mpr hlim), createAgent_ok hcap]
    dsimp only
    have hc1 : dget (dset s.agents c
        (⟨c, parent.workflow_id, none, mc, []⟩ : Agent)) c =
        some ⟨c, parent.workflow_id, none, mc, []⟩ := dget_dset_self _ _ _
    rw [hc1]
    dsimp only
    have hp2 : dget (dset (dset s.agents c
        (⟨c, parent.workflow_id, none, mc, []⟩ : Agent)) c
        (⟨c, parent.workflow_id, some p, mc, []⟩ : Agent)) p =
        some parent := by
      rw [dget_dset_ne hcp, dget_dset_ne hcp]
      exact hp
    rw [hp2]
    dsimp only
    refine ⟨_, rfl, ?_, ?_⟩
    · rw [dget_dset_ne (fun hh => hcp hh.symm), dget_dset_self]
    · rw [dget_dset_self]

/-- A registry with one parent agent that allows a single child. -/
def sWit8 : AgentService :=
  ⟨[("p", ⟨"p", "w", none, 1, []⟩)], [("p", [])], [("w", ["p"])], 100⟩

/-- Witness for C8: the first child of a parent with max_child_agents = 1
spawns successfully. -/
theorem spawn_child_limit_witness :
    ∃ s' : AgentService, spawnChildAgent sWit8 "p" "c" 1 = .ok s' ∧
      dget s'.agents "c" = some ⟨"c", "w", some "p", 1, []⟩ ∧
      dget s'.agents "p" = some ⟨"p", "w", none, 1, ["c"]⟩ :=
  (spawn_child_limit sWit8 "p" "c" 1 ⟨"p", "w", none, 1, []⟩ rfl).2
    (by decide) (by decide) rfl

/-- C10: create_agent on a workflow that already holds
max_agents_per_workflow agents raises AgentLimitExceededError before any
mutation, so the registry is unchanged; the settings default for the cap is
100. -/
theorem create_agent_workflow_limit (s : AgentService) (wf aid : String)
    (mc : Nat)
    (h : ((dget s.workflowAgents wf).getD []).length ≥
      s.maxAgentsPerWorkflow) :
    createAgent s wf aid mc = .error (.limitExceeded "Workflow agents"
      ((dget s.workflowAgents wf).getD []).length s.maxAgentsPerWorkflow)
    ∧ defaultMaxAgentsPerWorkflow = 100 := by
  constructor
  · simp only [createAgent]
    rw [if_pos h]
  · rfl

/-- Witness for C10 at a concrete registry whose workflow cap is already
reached. -/
theorem create_agent_workflow_limit_witness :
    createAgent (⟨[], [], [], 0⟩ : AgentService) "w" "a" 3 =
      .error (.limitExceeded "Workflow agents" 0 0) ∧
    defaultMaxAgentsPerWorkflow = 100 :=
  create_agent_workflow_limit ⟨[], [], [], 0⟩ "w" "a" 3 (by decide)

/-! ## Scheduling and failure handling (claims C1, C2) -/

/-- The cyclic two-step plan: S1 depends on S2, S2 depends on S1. -/
def cycleSteps : List PStep := [⟨"S1", ["S2"]⟩, ⟨"S2", ["S1"]⟩]

/-- C1: on the cyclic plan S1→S2→S1, _get_execution_order returns all steps
in their original order instead of reporting UnresolvableDependencies (the
function has no error outcome at all), and execute_workflow then proceeds
into _wait_for_dependencies and blocks forever awaiting S2 — the plan is
never rejected. -/
theorem cycle_plan_not_rejected :
    getExecutionOrder (createTaskDependencies cycleSteps []) cycleSteps =
      cycleSteps ∧
    runBasic (fun _ => true) (createTaskDependencies cycleSteps [])
      (getExecutionOrder (createTaskDependencies cycleSteps []) cycleSteps) []
      = .blockedAt "S1" "S2" [] cycleSteps ∧
    executeWorkflowBasic (fun _ => true)
      (createTaskDependencies cycleSteps []) cycleSteps = none :=
  ⟨rfl, rfl, rfl⟩

/-- Structure of a broken execute_workflow run: the order list splits at the
failed step, that step's recorded status is failed, and no step id outside
the processed prefix (and absent from the initial results) has any entry. -/
theorem runBasic_brokeAt (oracle : String → Bool)
    (taskDeps : List (String × List String)) :
    ∀ (L : List PStep) (R : List (String × StepRes)) (sid : String)
      (res : List (String × StepRes)) (rest : List PStep),
      runBasic oracle taskDeps L R = .brokeAt sid res rest →
      ∃ pre step, L = pre ++ step :: rest ∧ step.step_id = sid ∧
        dget res sid = some .failed ∧
        (∀ k, dget R k = none → k ∉ pre.map PStep.step_id → k ≠ sid →
          dget res k = none) := by
  intro L
  induction L with
  | nil =>
    intro R sid res rest h
    simp [runBasic] at h
  | cons step rest' ih =>
    intro R sid res rest h
    simp only [runBasic] at h
    split at h
    · exact absurd h (by simp)
    · simp only [RunOutcome.brokeAt.injEq] at h
      obtain ⟨h1, h2, h3⟩ := h
      subst h1
      subst h2
      subst h3
      refine ⟨[], step, by simp, rfl, dget_dset_self _ _ _, ?_⟩
      intro k hk hkpre hksid
      rw [dget_dset_ne (fun hh => hksid hh.symm)]
      exact hk
    · split at h
      · obtain ⟨pre', st, hL, hsid, hfail, hnone⟩ :=
          ih (dset R step.step_id .completed) sid res rest h
        refine ⟨step :: pre', st, by rw [List.cons_append, hL], hsid,
          hfail, ?_⟩
        intro k hk hkpre hksid
        simp only [List.map_cons, List.mem_cons] at hkpre
        push_neg at hkpre
        refine hnone k ?_ hkpre.2 hksid
        rw [dget_dset_ne (fun hh => hkpre.1 hh.symm)]
        exact hk
      · simp only [RunOutcome.brokeAt.injEq] at h
        obtain ⟨h1, h2, h3⟩ := h
        subst h1
        subst h2
        subst h3
        refine ⟨[], step, by simp, rfl, dget_dset_self _ _ _, ?_⟩
        intro k hk hkpre hksid
        rw [dget_dset_ne (fun hh => hksid hh.symm)]
        exact hk

theorem workflowStatusOf_failed {res : List (String × StepRes)} {sid : String}
    (h : dget res sid = some .failed) : workflowStatusOf res = "failed" := by
  unfold workflowStatusOf
  rw [if_neg]
  intro hall
  have := List.all_eq_true.mp hall (sid, .failed) (dget_mem h)
  simp at this

/-- C2 (amended): at intelligence level BASIC, when the run breaks at a
failed step, that step's recorded result is failed, every step after it in
the execution order has no recorded status at all (neither executed nor
SKIPPED), and the overall workflow status is failed. -/
theorem basic_failure_stops_execution
    (oracle : String → Bool) (taskDeps : List (String × List String))
    (steps : List PStep) (sid : String) (res : List (String × StepRes))
    (rest : List PStep)
    (hnd : ((getExecutionOrder taskDeps steps).map PStep.step_id).Nodup)
    (hrun : runBasic oracle taskDeps (getExecutionOrder taskDeps steps) []
      = .brokeAt sid res rest) :
    dget res sid = some .failed ∧
    (∀ t ∈ rest, dget res t.step_id = none) ∧
    executeWorkflowBasic oracle taskDeps steps = some ⟨"failed", res⟩ := by
  obtain ⟨pre, step, hL, hsid, hfail, hnone⟩ :=
    runBasic_brokeAt oracle taskDeps _ [] sid res rest hrun
  refine ⟨hfail, ?_, ?_⟩
  · intro t ht
    rw [hL] at hnd
    simp only [List.map_append, List.map_cons, List.nodup_append,
      List.nodup_cons] at hnd
    obtain ⟨hpre, ⟨hstep, hrest⟩, hdisj⟩ := hnd
    have htid : t.step_id ∈ rest.map PStep.step_id :=
      List.mem_map_of_mem _ ht
    refine hnone t.step_id rfl ?_ ?_
    · intro hmem
      exact hdisj hmem (List.mem_cons_of_mem _ htid)
    · intro hh
      rw [← hsid] at hh
      exact hstep (hh ▸ htid)
  · unfold executeWorkflowBasic
    rw [hrun]
    dsimp only
    rw [workflowStatusOf_failed hfail]

/-- The plan used for the C2 counterexample and witness: S1, S2, S4 have no
dependencies, S3 depends on S2, and S2 fails. -/
def c2exSteps : List PStep :=
  [⟨"S1", []⟩, ⟨"S2", []⟩, ⟨"S3", ["S2"]⟩, ⟨"S4", []⟩]

/-- The step oracle under which only S2 fails. -/
def c2exOracle : String → Bool := fun sid => sid ≠ "S2"

/-- Counterexample to C2 as stated: with S2 failing at BASIC, the independent
step S4 is never executed (it has no recorded result), and the dependent S3
gets no SKIPPED status either — it simply has no record. -/
theorem basic_failure_cex :
    executeWorkflowBasic c2exOracle (createTaskDependencies c2exSteps [])
      c2exSteps =
      some ⟨"failed", [("S1", .completed), ("S2", .failed)]⟩ ∧
    dget [("S1", StepRes.completed), ("S2", StepRes.failed)] "S4" = none ∧
    dget [("S1", StepRes.completed), ("S2", StepRes.failed)] "S3" = none :=
  ⟨rfl, rfl, rfl⟩

/-- Witness for C2's amended theorem at the concrete failing plan. -/
theorem basic_failure_stops_execution_witness :
    dget [("S1", StepRes.completed), ("S2", StepRes.failed)] "S2"
      = some .failed ∧
    (∀ t ∈ [(⟨"S4", []⟩ : PStep), ⟨"S3", ["S2"]⟩],
      dget [("S1", StepRes.completed), ("S2", StepRes.failed)] t.step_id
        = none) ∧
    executeWorkflowBasic c2exOracle (createTaskDependencies c2exSteps [])
      c2exSteps =
      some ⟨"failed", [("S1", StepRes.completed), ("S2", StepRes.failed)]⟩ :=
  basic_failure_stops_execution c2exOracle (createTaskDependencies c2exSteps [])
    c2exSteps "S2" [("S1", StepRes.completed), ("S2", StepRes.failed)]
    [⟨"S4", []⟩, ⟨"S3", ["S2"]⟩] (by decide) rfl

/-! ## Dynamic step injection (claim C4) -/

/-- The one-step plan used for the C4 counterexample and witness. -/
def c4Plan : WorkflowPlan := ⟨"wf1", [⟨"S1", []⟩]⟩

/-- The task-service state holding that plan. -/
def c4State : TaskServiceState := ⟨[("wf1", c4Plan)], [("S1", [])]⟩

/-- C4 (amended): for a known workflow, add_dynamic_step appends the step to
the plan and overwrites its dependency entry unconditionally — there is no
duplicate step_id check, so the call succeeds even when the id is already in
use. -/
theorem add_dynamic_step_appends (ts : TaskServiceState) (wf : String)
    (d : PStep) (plan : WorkflowPlan)
    (hp : dget ts.workflowPlans wf = some plan) :
    addDynamicStep ts wf d = .ok ⟨dset ts.workflowPlans wf
        ⟨plan.workflow_id, plan.steps ++ [d]⟩,
      dset ts.taskDependencies d.step_id d.dependencies⟩ ∧
    dget (dset ts.workflowPlans wf ⟨plan.workflow_id, plan.steps ++ [d]⟩) wf
      = some ⟨plan.workflow_id, plan.steps ++ [d]⟩ := by
  constructor
  · simp only [addDynamicStep, hp]
  · exact dget_dset_self _ _ _

/-- Counterexample to C4 as stated: adding a dynamic step whose step_id S1 is
already used in the plan succeeds (no DuplicateStep error) and leaves the
plan with two steps named S1. -/
theorem add_dynamic_step_duplicate_cex :
    addDynamicStep c4State "wf1" ⟨"S1", ["S0"]⟩ =
      .ok ⟨[("wf1", ⟨"wf1", [⟨"S1", []⟩, ⟨"S1", ["S0"]⟩]⟩)],
        [("S1", ["S0"])]⟩ ∧
    ((⟨"wf1", [⟨"S1", []⟩, ⟨"S1", ["S0"]⟩]⟩ : WorkflowPlan).steps.map
      PStep.step_id) = ["S1", "S1"] :=
  ⟨rfl, rfl⟩

/-- Witness for C4's amended theorem at the duplicate-id input. -/
theorem add_dynamic_step_appends_witness :
    addDynamicStep c4State "wf1" ⟨"S1", ["S0"]⟩ =
      .ok ⟨dset c4State.workflowPlans "wf1"
          ⟨c4Plan.workflow_id, c4Plan.steps ++ [⟨"S1", ["S0"]⟩]⟩,
        dset c4State.taskDependencies "S1" ["S0"]⟩ ∧
    dget (dset c4State.workflowPlans "wf1"
        ⟨c4Plan.workflow_id, c4Plan.steps ++ [⟨"S1", ["S0"]⟩]⟩) "wf1"
      = some ⟨c4Plan.workflow_id, c4Plan.steps ++ [⟨"S1", ["S0"]⟩]⟩ :=
  add_dynamic_step_appends c4State "wf1" ⟨"S1", ["S0"]⟩ c4Plan rfl

/-! ## Workflow status reporting (claim C3) -/

theorem filter_length_eq_iff {α : Type} (p : α → Bool) (l : List α) :
    (l.filter p).length = l.length ↔ ∀ a ∈ l, p a = true := by
  induction l with
  | nil => simp
  | cons x xs ihx =>
    by_cases hx : p x
    · simp [hx, ihx]
    · rw [List.filter_cons, if_neg hx]
      constructor
      · intro h
        have hle := List.length_filter_le p xs
        rw [h] at hle
        simp at hle
      · intro h
        exact absurd (h x (List.mem_cons_self x xs)) (by simp [hx])

theorem workflowStatusOf_spec (res : List (String × StepRes)) :
    (workflowStatusOf res = "completed" ↔
      ∀ p ∈ res, p.2 = StepRes.completed) ∧
    (workflowStatusOf res = "completed" ∨ workflowStatusOf res = "failed") := by
  unfold workflowStatusOf
  by_cases hall : res.all (fun p => decide (p.2 = StepRes.completed)) = true
  · rw [if_pos hall]
    refine ⟨⟨fun _ p hp => ?_, fun _ => rfl⟩, .inl rfl⟩
    have := List.all_eq_true.mp hall p hp
    simpa using this
  · rw [if_neg hall]
    refine ⟨⟨fun hh => absurd hh (by decide), fun hh => ?_⟩, .inr rfl⟩
    exact absurd (List.all_eq_true.mpr (fun p hp => by simp [hh p hp])) hall

/-- C3 (amended): execute_workflow reports completed iff every recorded
result is completed and otherwise failed; execute_workflow_with_delegation
reports completed iff every executed step completed and otherwise
completed_with_errors (never failed); and _calculate_workflow_status reports
failed only when some step failed, cancelled when none failed but some step
was cancelled, running when none failed or cancelled but some step runs,
completed when all steps completed, and pending otherwise. -/
theorem workflow_status_reporting :
    (∀ (oracle : String → Bool) (taskDeps : List (String × List String))
      (steps : List PStep) (r : WfResult),
      executeWorkflowBasic oracle taskDeps steps = some r →
      ((r.status = "completed" ↔ ∀ p ∈ r.results, p.2 = StepRes.completed) ∧
        (r.status = "completed" ∨ r.status = "failed")))
    ∧ (∀ (oracle : String → Bool) (steps : List PStep),
      ((executeWorkflowWithDelegation oracle steps).status = "completed" ↔
        ∀ p ∈ (executeWorkflowWithDelegation oracle steps).results,
          p.2 = StepRes.completed) ∧
      ((executeWorkflowWithDelegation oracle steps).status = "completed" ∨
        (executeWorkflowWithDelegation oracle steps).status =
          "completed_with_errors"))
    ∧ (∀ statuses : List String,
      ("failed" ∈ statuses → calculateWorkflowStatus statuses = "failed") ∧
      ("failed" ∉ statuses → "cancelled" ∈ statuses →
        calculateWorkflowStatus statuses = "cancelled") ∧
      ("failed" ∉ statuses → "cancelled" ∉ statuses → "running" ∈ statuses →
        calculateWorkflowStatus statuses = "running") ∧
      ((∀ st ∈ statuses, st = "completed") →
        calculateWorkflowStatus statuses = "completed") ∧
      ("failed" ∉ statuses → "cancelled" ∉ statuses → "running" ∉ statuses →
        ¬(∀ st ∈ statuses, st = "completed") →
        calculateWorkflowStatus statuses = "pending")) := by
  refine ⟨?_, ?_, ?_⟩
  · intro oracle taskDeps steps r h
    unfold executeWorkflowBasic at h
    cases hr : runBasic oracle taskDeps (getExecutionOrder taskDeps steps) []
      with
    | done results =>
      rw [hr] at h
      simp only [Option.some.injEq] at h
      subst h
      exact workflowStatusOf_spec results
    | brokeAt stepId results rest =>
      rw [hr] at h
      simp only [Option.some.injEq] at h
      subst h
      exact workflowStatusOf_spec results
    | blockedAt stepId depId results rest =>
      rw [hr] at h
      simp at h
  · intro oracle steps
    unfold executeWorkflowWithDelegation
    dsimp only
    by_cases heq : ((delegLoop oracle steps 100 [] []).1.filter
        (fun p => decide (p.2 = StepRes.completed))).length =
        (delegLoop oracle steps 100 [] []).1.length
    · rw [if_pos heq]
      refine ⟨⟨fun _ p hp => ?_, fun _ => rfl⟩, .inl rfl⟩
      have := (filter_length_eq_iff _ _).mp heq p hp
      simpa using this
    · rw [if_neg heq]
      refine ⟨⟨fun hh => absurd hh (by decide), fun hh => ?_⟩, .inr rfl⟩
      exact absurd ((filter_length_eq_iff _ _).mpr
        (fun p hp => by simp [hh p hp])) heq
  · intro statuses
    have hany : ∀ v : String, (statuses.any (fun st => decide (st = v)) = true)
        ↔ v ∈ statuses := by
      intro v
      rw [List.any_eq_true]
      constructor
      · rintro ⟨st, hst, he⟩
        simp only [decide_eq_true_eq] at he
        exact he ▸ hst
      · intro hv
        exact ⟨v, hv, by simp⟩
    refine ⟨?_, ?_, ?_, ?_, ?_⟩
    · intro h
      unfold calculateWorkflowStatus
      rw [if_pos ((hany "failed").mpr h)]
    · intro h1 h2
      unfold calculateWorkflowStatus
      rw [if_neg (fun hc => h1 ((hany "failed").mp hc)),
        if_pos ((hany "cancelled").mpr h2)]
    · intro h1 h2 h3
      unfold calculateWorkflowStatus
      rw [if_neg (fun hc => h1 ((hany "failed").mp hc)),
        if_neg (fun hc => h2 ((hany "cancelled").mp hc)),
        if_pos ((hany "running").mpr h3)]
    · intro h
      unfold calculateWorkflowStatus
      have hne : ∀ v : String, v ≠ "completed" → v ∉ statuses := by
        intro v hv hmem
        exact hv (h v hmem)
      rw [if_neg (fun hc => hne "failed" (by decide) ((hany "failed").mp hc)),
        if_neg (fun hc => hne "cancelled" (by decide)
          ((hany "cancelled").mp hc)),
        if_neg (fun hc => hne "running" (by decide) ((hany "running").mp hc)),
        if_pos (List.all_eq_true.mpr (fun st hst => by simp [h st hst]))]
    · intro h1 h2 h3 h4
      unfold calculateWorkflowStatus
      rw [if_neg (fun hc => h1 ((hany "failed").mp hc)),
        if_neg (fun hc => h2 ((hany "cancelled").mp hc)),
        if_neg (fun hc => h3 ((hany "running").mp hc)), if_neg]
      intro hall
      refine h4 (fun st hst => ?_)
      have := List.all_eq_true.mp hall st hst
      simpa using this

/-- The one-step plan whose only step fails, for the C3 counterexample. -/
def c3exSteps : List PStep := [⟨"S1", []⟩]

/-- Counterexample to C3 as stated: a delegation-mode execution with a failed
step reports completed_with_errors, which is neither COMPLETED nor FAILED. -/
theorem delegation_status_cex :
    (executeWorkflowWithDelegation (fun _ => false) c3exSteps).results =
      [("S1", .failed)] ∧
    (executeWorkflowWithDelegation (fun _ => false) c3exSteps).status =
      "completed_with_errors" ∧
    (executeWorkflowWithDelegation (fun _ => false) c3exSteps).status ≠
      "failed" ∧
    (executeWorkflowWithDelegation (fun _ => false) c3exSteps).status ≠
      "completed" := by
  refine ⟨rfl, rfl, ?_, ?_⟩ <;> decide

/-- Witness for C3's amended theorem on concrete executions. -/
theorem workflow_status_reporting_witness :
    ((some (⟨"failed", [("S1", StepRes.completed), ("S2", StepRes.failed)]⟩ :
        WfResult) =
      some (⟨"failed", [("S1", StepRes.completed), ("S2", StepRes.failed)]⟩ :
        WfResult)) ∧
    (("failed" : String) = "completed" ↔
      ∀ p ∈ [("S1", StepRes.completed), ("S2", StepRes.failed)],
        p.2 = StepRes.completed) ∧
    (("failed" : String) = "completed" ∨ ("failed" : String) = "failed")) ∧
    calculateWorkflowStatus ["completed", "cancelled"] = "cancelled" := by
  refine ⟨⟨rfl, ?_, ?_⟩, ?_⟩
  · exact ((workflow_status_reporting.1 c2exOracle
      (createTaskDependencies c2exSteps []) c2exSteps
      ⟨"failed", [("S1", StepRes.completed), ("S2", StepRes.failed)]⟩
      rfl).1 : _)
  · exact (workflow_status_reporting.1 c2exOracle
      (createTaskDependencies c2exSteps []) c2exSteps
      ⟨"failed", [("S1", StepRes.completed), ("S2", StepRes.failed)]⟩
      rfl).2
  · exact (workflow_status_reporting.2.2 ["completed", "cancelled"]).2.1
      (by decide) (by decide)

/-! ## Retry with backoff (claim C9) -/

theorem retryAux_len {E R : Type} (att : Nat → Except E R) (bf mx : Nat) :
    ∀ n i, mx - i ≤ n → (retryAux att bf mx i).1.length ≤ mx - i := by
  intro n
  induction n with
  | zero =>
    intro i hi
    have hge : ¬ i < mx := by omega
    rw [retryAux, dif_neg hge]
    simp
  | succ n ihn =>
    intro i hi
    by_cases hlt : i < mx
    · rw [retryAux, dif_pos hlt]
      dsimp only
      cases hatt : att i with
      | ok r =>
        dsimp only
        simp only [List.length_cons, List.length_nil]
        omega
      | error e =>
        dsimp only
        by_cases hlast : i = mx - 1
        · rw [if_pos hlast]
          simp only [List.length_cons, List.length_nil]
          omega
        · rw [if_neg hlast]
          have := ihn (i + 1) (by omega)
          simp only [List.length_cons]
          omega
    · rw [retryAux, dif_neg hlt]
      simp

theorem retryAux_sleeps {E R : Type} (att : Nat → Except E R) (bf mx : Nat) :
    ∀ n i, mx - i ≤ n →
      (retryAux att bf mx i).1 =
        (List.range (retryAux att bf mx i).1.length).map
          (fun j => bf ^ (i + j)) := by
  intro n
  induction n with
  | zero =>
    intro i hi
    have hge : ¬ i < mx := by omega
    rw [retryAux, dif_neg hge]
    simp
  | succ n ihn =>
    intro i hi
    by_cases hlt : i < mx
    · rw [retryAux, dif_pos hlt]
      dsimp only
      cases hatt : att i with
      | ok r =>
        dsimp only
        rfl
      | error e =>
        dsimp only
        by_cases hlast : i = mx - 1
        · rw [if_pos hlast]
          rfl
        · rw [if_neg hlast]
          dsimp only
          have hrec := ihn (i + 1) (by omega)
          rw [List.length_cons, List.range_succ_eq_map, List.map_cons,
            List.map_map]
          have htail : List.map (fun j => bf ^ (i + 1 + j))
              (List.range (retryAux att bf mx (i + 1)).1.length)
              = List.map ((fun j => bf ^ (i + j)) ∘ Nat.succ)
                (List.range (retryAux att bf mx (i + 1)).1.length) :=
            List.map_congr_left (fun j hj => by
              simp only [Function.comp_apply]
              congr 1
              omega)
          conv_lhs => rw [hrec, htail]
          rfl
    · rw [retryAux, dif_neg hlt]
      simp

theorem retryAux_success {E R : Type} (att : Nat → Except E R) (bf mx : Nat) :
    ∀ n i k r, mx - i ≤ n → i ≤ k → k < mx →
      (∀ j, i ≤ j → j < k → ∃ e, att j = .error e) → att k = .ok r →
      retryAux att bf mx i =
        ((List.range (k + 1 - i)).map (fun j => bf ^ (i + j)),
          some (.ok r)) := by
  intro n
  induction n with
  | zero =>
    intro i k r hi hik hk hfail hok
    omega
  | succ n ihn =>
    intro i k r hi hik hk hfail hok
    have hlt : i < mx := by omega
    rw [retryAux, dif_pos hlt]
    dsimp only
    by_cases hik2 : i = k
    · subst hik2
      rw [hok]
      dsimp only
      have hone : i + 1 - i = 1 := by omega
      rw [hone]
      rfl
    · obtain ⟨e, he⟩ := hfail i le_rfl (by omega)
      rw [he]
      dsimp only
      have hlast : ¬ i = mx - 1 := by omega
      rw [if_neg hlast]
      have hrec := ihn (i + 1) k r (by omega) (by omega) hk
        (fun j hj1 hj2 => hfail j (by omega) hj2) hok
      rw [hrec]
      dsimp only
      have hk1 : k + 1 - i = (k + 1 - (i + 1)) + 1 := by omega
      rw [hk1, List.range_succ_eq_map, List.map_cons, List.map_map]
      have htail : List.map (fun j => bf ^ (i + 1 + j))
          (List.range (k + 1 - (i + 1)))
          = List.map ((fun j => bf ^ (i + j)) ∘ Nat.succ)
            (List.range (k + 1 - (i + 1))) :=
        List.map_congr_left (fun j hj => by
          simp only [Function.comp_apply]
          congr 1
          omega)
      rw [htail]
      rfl

theorem retryAux_allfail {E R : Type} (att : Nat → Except E R) (bf mx : Nat) :
    ∀ n i, mx - i ≤ n → i < mx →
      (∀ j, i ≤ j → j < mx → ∃ e, att j = .error e) →
      (retryAux att bf mx i).2 = some (att (mx - 1)) := by
  intro n
  induction n with
  | zero =>
    intro i hi hlt hfail
    omega
  | succ n ihn =>
    intro i hi hlt hfail
    rw [retryAux, dif_pos hlt]
    dsimp only
    obtain ⟨e, he⟩ := hfail i le_rfl hlt
    rw [he]
    dsimp only
    by_cases hlast : i = mx - 1
    · rw [if_pos hlast]
      dsimp only
      rw [← hlast, he]
    · rw [if_neg hlast]
      dsimp only
      exact ihn (i + 1) (by omega) (by omega)
        (fun j hj1 hj2 => hfail j (by omega) hj2)

/-- C9: _retry_step_with_backoff dispatches the step at most max_retries
times (one sleep precedes each dispatch); the sleeps performed are
backoff_factor ^ attempt for attempt = 0, 1, ...; when the first k attempts
fail and attempt k succeeds (k < max_retries) the result of attempt k is
returned after sleeps backoff^0 .. backoff^k; and when all max_retries
attempts fail, the failure of the last attempt (attempt max_retries - 1) is
re-raised. -/
theorem retry_with_backoff_behaviour {E R : Type}
    (attempt : Nat → Except E R) (maxRetries backoffFactor : Nat) :
    (retryStepWithBackoff attempt maxRetries backoffFactor).1.length ≤
      maxRetries
    ∧ (retryStepWithBackoff attempt maxRetries backoffFactor).1 =
        (List.range
          (retryStepWithBackoff attempt maxRetries backoffFactor).1.length).map
          (fun j => backoffFactor ^ j)
    ∧ (∀ k r, k < maxRetries → (∀ j, j < k → ∃ e, attempt j = .error e) →
        attempt k = .ok r →
        retryStepWithBackoff attempt maxRetries backoffFactor =
          ((List.range (k + 1)).map (fun j => backoffFactor ^ j),
            some (.ok r)))
    ∧ (0 < maxRetries → (∀ j, j < maxRetries → ∃ e, attempt j = .error e) →
        (retryStepWithBackoff attempt maxRetries backoffFactor).2 =
          some (attempt (maxRetries - 1))) := by
  refine ⟨?_, ?_, ?_, ?_⟩
  · have := retryAux_len attempt backoffFactor maxRetries maxRetries 0
      (by omega)
    simpa using this
  · have := retryAux_sleeps attempt backoffFactor maxRetries maxRetries 0
      (by omega)
    simpa using this
  · intro k r hk hfail hok
    have := retryAux_success attempt backoffFactor maxRetries maxRetries 0 k r
      (by omega) (by omega) hk (fun j hj1 hj2 => hfail j hj2) hok
    simpa using this
  · intro hpos hfail
    exact retryAux_allfail attempt backoffFactor maxRetries maxRetries 0
      (by omega) hpos (fun j hj1 hj2 => hfail j hj2)

/-- The attempt oracle whose first dispatch fails and second succeeds. -/
def c9att : Nat → Except String String :=
  fun i => if i = 0 then .error "boom" else .ok "done"

/-- Witness for C9: with max_retries = 3 and backoff_factor = 2, the first
attempt fails, the second succeeds; the sleeps performed are 2^0 = 1 and
2^1 = 2, and the success of attempt 1 is returned. -/
theorem retry_with_backoff_behaviour_witness :
    retryStepWithBackoff c9att 3 2 = ([1, 2], some (.ok "done")) := by
  have h := (retry_with_backoff_behaviour c9att 3 2).2.2.1 1 "done"
    (by omega)
    (fun j hj => ⟨"boom", by
      have hj0 : j = 0 := by omega
      rw [hj0]
      rfl⟩)
    rfl
  rw [h]
  rfl

end LangGraph
